import Mathlib

/-!
Shallow embedding of `sparse.py` (class `CompressedMatrix`): a sparse matrix
backed by an insertion-ordered association list modelling the Python dict
`non_zero_elements`, together with the text codec (`load_from_file` parsing
via `re.match`, `__str__` serialization) and the arithmetic operations
`add`, `subtract`, `multiply`.

Text is modelled as `List Char`; Python's `re.match` anchors at the start of
the string only (prefix matching), which the hand-rolled matchers below
reproduce exactly.
-/

/-- The character class of Python's `str.strip()` / regex `\s` (ASCII part). -/
def isPySpace (ch : Char) : Bool :=
  ch = ' ' || ch = '\t' || ch = '\n' || ch = '\r' || ch = '\x0b' || ch = '\x0c'

/-- ASCII decimal digit, the class matched by `\d` on the inputs at hand. -/
def isPyDigit (ch : Char) : Bool :=
  '0' ≤ ch && ch ≤ '9'

/-- Python `str.strip()`: drop leading and trailing whitespace. -/
def pyStrip (l : List Char) : List Char :=
  ((l.dropWhile isPySpace).reverse.dropWhile isPySpace).reverse

/-- Numeric value of a digit character. -/
def digitVal (ch : Char) : Nat :=
  ch.toNat - '0'.toNat

/-- Decimal value of a digit string (as `int()` computes it). -/
def digitsToNat (ds : List Char) : Nat :=
  ds.foldl (fun a ch => 10 * a + digitVal ch) 0

/-- Match a literal character sequence at the start of the input,
returning the rest on success. -/
def dropLit : List Char → List Char → Option (List Char)
  | [], l => some l
  | _ :: _, [] => none
  | c :: cs, x :: xs => if x = c then dropLit cs xs else none

/-- Greedy `\d+` at the start of the input: at least one digit, returning the
number and the unconsumed rest. -/
def matchNat (l : List Char) : Option (Nat × List Char) :=
  let ds := l.takeWhile isPyDigit
  if ds = [] then none else some (digitsToNat ds, l.dropWhile isPyDigit)

/-- `-?\d+` at the start of the input: an optional minus sign then digits
(backtracking is immaterial: `-` is not a digit, so the sign is consumed
exactly when present). -/
def matchSignedInt (l : List Char) : Option (Int × List Char) :=
  match l with
  | [] => none
  | c :: rest =>
    if c = '-' then (matchNat rest).map (fun p => (-(p.1 : Int), p.2))
    else (matchNat (c :: rest)).map (fun p => ((p.1 : Int), p.2))

/-- `re.match(key + r'(\d+)', line)`: the literal key then digits, prefix
match — trailing characters after the digits are ignored. -/
def matchHeader (key : List Char) (l : List Char) : Option Nat := do
  let rest ← dropLit key l
  let p ← matchNat rest
  pure p.1

/-- `re.match(r'rows=(\d+)', line)` of `_parse_dimensions`. -/
def matchRows (l : List Char) : Option Nat :=
  matchHeader (("rows=").toList) l

/-- `re.match(r'cols=(\d+)', line)` of `_parse_dimensions`. -/
def matchCols (l : List Char) : Option Nat :=
  matchHeader (("cols=").toList) l

/-- `re.match(r'\((\d+),\s*(\d+),\s*(-?\d+)\)', line)` of
`_parse_non_zero_elements`: prefix match, so characters after the closing
parenthesis are ignored. -/
def matchEntry (l : List Char) : Option ((Nat × Nat) × Int) := do
  let r1 ← dropLit (("(").toList) l
  let p1 ← matchNat r1
  let r2 ← dropLit ((",").toList) p1.2
  let r3 := r2.dropWhile isPySpace
  let p2 ← matchNat r3
  let r4 ← dropLit ((",").toList) p2.2
  let r5 := r4.dropWhile isPySpace
  let p3 ← matchSignedInt r5
  let _ ← dropLit ((")").toList) p3.2
  pure ((p1.1, p2.1), p3.1)

/-- Python dict lookup on the insertion-ordered association list. -/
def dictGet : List ((Nat × Nat) × Int) → (Nat × Nat) → Option Int
  | [], _ => none
  | (k, v) :: rest, key => if k = key then some v else dictGet rest key

/-- Python dict update: overwrite in place if the key exists (keeping its
position), otherwise append at the end. -/
def dictSet : List ((Nat × Nat) × Int) → (Nat × Nat) → Int → List ((Nat × Nat) × Int)
  | [], key, v => [(key, v)]
  | (k, w) :: rest, key, v =>
    if k = key then (k, v) :: rest else (k, w) :: dictSet rest key v

/-- The class `CompressedMatrix`: dimensions plus the coordinate-keyed
mapping `non_zero_elements` (insertion-ordered, as a Python dict). -/
structure CMatrix where
  row_count : Nat
  column_count : Nat
  non_zero_elements : List ((Nat × Nat) × Int)
deriving Repr, DecidableEq

/-- Errors raised by the source (all `ValueError` in Python, distinguished
here by their message). -/
inductive MatrixError where
  /-- `_read_file`: "does not contain enough lines for matrix dimensions". -/
  | notEnoughLines : MatrixError
  /-- `_parse_dimensions`: "Invalid dimension format in file.". -/
  | invalidDimensionFormat : MatrixError
  /-- `_parse_non_zero_elements`: "Invalid format at line {i + 1}: {line}.". -/
  | invalidLineFormat (lineNumber : Nat) (line : List Char) : MatrixError
  /-- `_check_dimensions`: "Matrices must have the same dimensions for
  {operation}." — operation is "addition" or "subtraction". -/
  | dimensionMismatch (isAddition : Bool) : MatrixError
  /-- `multiply`: "Number of columns of the first matrix must equal the
  number of rows of the second matrix.". -/
  | multiplyDimensionMismatch : MatrixError
deriving Repr, DecidableEq

namespace CMatrix

/-- `get_value`: the stored value, or 0 if the coordinate is absent. -/
def get_value (m : CMatrix) (row_index col_index : Nat) : Int :=
  (dictGet m.non_zero_elements (row_index, col_index)).getD 0

/-- `set_value`: grow each dimension to `index + 1` when needed, then store
the value in the dict. -/
def set_value (m : CMatrix) (row_index col_index : Nat) (value : Int) : CMatrix :=
  { row_count := max m.row_count (row_index + 1)
    column_count := max m.column_count (col_index + 1)
    non_zero_elements := dictSet m.non_zero_elements (row_index, col_index) value }

/-- `_create_empty_matrix`: same dimensions, empty mapping. -/
def create_empty_matrix (m : CMatrix) : CMatrix :=
  ⟨m.row_count, m.column_count, []⟩

/-- `_copy_non_zero_elements`: set each of `src`'s entries into `target`. -/
def copy_non_zero_elements (src target : CMatrix) : CMatrix :=
  src.non_zero_elements.foldl (fun t p => t.set_value p.1.1 p.1.2 p.2) target

/-- `_check_dimensions`: raise unless both dimensions agree. -/
def check_dimensions (m other : CMatrix) (isAddition : Bool) : Except MatrixError Unit :=
  if m.row_count ≠ other.row_count || m.column_count ≠ other.column_count then
    Except.error (MatrixError.dimensionMismatch isAddition)
  else Except.ok ()

/-- `add`: dimension check, copy `self`'s entries, then accumulate each of
`other`'s entries into the result. -/
def add (m other : CMatrix) : Except MatrixError CMatrix := do
  let _ ← check_dimensions m other true
  let result := copy_non_zero_elements m (create_empty_matrix m)
  pure (other.non_zero_elements.foldl
    (fun res p => res.set_value p.1.1 p.1.2 (res.get_value p.1.1 p.1.2 + p.2)) result)

/-- `subtract`: as `add`, subtracting `other`'s entries. -/
def subtract (m other : CMatrix) : Except MatrixError CMatrix := do
  let _ ← check_dimensions m other false
  let result := copy_non_zero_elements m (create_empty_matrix m)
  pure (other.non_zero_elements.foldl
    (fun res p => res.set_value p.1.1 p.1.2 (res.get_value p.1.1 p.1.2 - p.2)) result)

/-- One step of `multiply`'s inner loop body at column `k`. -/
def multiplyStep (other : CMatrix) (row_index col_index : Nat) (value : Int)
    (res : CMatrix) (k : Nat) : CMatrix :=
  let other_value := other.get_value col_index k
  if other_value ≠ 0 then
    res.set_value row_index k (res.get_value row_index k + value * other_value)
  else res

/-- `multiply`'s inner loop: `for k in range(other.column_count)`. -/
def multiplyInner (other : CMatrix) (row_index col_index : Nat) (value : Int)
    (res : CMatrix) : CMatrix :=
  (List.range other.column_count).foldl (multiplyStep other row_index col_index value) res

/-- `multiply`: inner-dimension check, then for each entry of `self` scan
every column of `other`, accumulating nonzero products. -/
def multiply (m other : CMatrix) : Except MatrixError CMatrix :=
  if m.column_count ≠ other.row_count then
    Except.error MatrixError.multiplyDimensionMismatch
  else
    Except.ok (m.non_zero_elements.foldl
      (fun res p => multiplyInner other p.1.1 p.1.2 p.2 res)
      ⟨m.row_count, other.column_count, []⟩)

end CMatrix

/-- `_parse_non_zero_elements`: walk the lines after the first two, skipping
blank lines, applying each matched triple via `set_value`, failing with the
1-based line number at the first non-blank line the entry regex rejects.
`i` is the 0-based index of the current line in the whole file. -/
def parse_non_zero_elements : List (List Char) → Nat → CMatrix → Except MatrixError CMatrix
  | [], _, m => Except.ok m
  | l :: rest, i, m =>
    let line := pyStrip l
    if line = [] then parse_non_zero_elements rest (i + 1) m
    else
      match matchEntry line with
      | some p => parse_non_zero_elements rest (i + 1) (m.set_value p.1.1 p.1.2 p.2)
      | none => Except.error (MatrixError.invalidLineFormat (i + 1) line)

/-- `load_from_file` after `_read_file` has produced the line list: the
length check of `_read_file`, `_parse_dimensions` on the first two lines,
then `_parse_non_zero_elements` on the rest. -/
def load_from_lines (lines : List (List Char)) : Except MatrixError CMatrix :=
  if lines.length < 2 then Except.error MatrixError.notEnoughLines
  else
    match matchRows (pyStrip (lines.getD 0 [])), matchCols (pyStrip (lines.getD 1 [])) with
    | some total_rows, some total_cols =>
      parse_non_zero_elements (lines.drop 2) 2 ⟨total_rows, total_cols, []⟩
    | some _, none => Except.error MatrixError.invalidDimensionFormat
    | none, _ => Except.error MatrixError.invalidDimensionFormat

/-- Python `file.readlines()` on a text: split at each newline, a trailing
newline not producing an extra empty line, empty text producing no lines.
(The terminators themselves are dropped: every use in the source strips the
line first, so they are immaterial.) -/
def readLines : List Char → List (List Char)
  | [] => []
  | c :: rest =>
    if c = '\n' then [] :: readLines rest
    else
      match readLines rest with
      | [] => [[c]]
      | l :: ls => (c :: l) :: ls

/-- `load_from_file` on the text contents of the file. -/
def load_from_text (text : List Char) : Except MatrixError CMatrix :=
  load_from_lines (readLines text)

/-- Decimal digit character, as `str()` prints one digit. -/
def digitChar : Nat → Char
  | 0 => '0'
  | 1 => '1'
  | 2 => '2'
  | 3 => '3'
  | 4 => '4'
  | 5 => '5'
  | 6 => '6'
  | 7 => '7'
  | 8 => '8'
  | _ => '9'

/-- Decimal representation of a natural number, as Python `str()`. -/
def natToDigits (n : Nat) : List Char :=
  if _h : n < 10 then [digitChar n]
  else natToDigits (n / 10) ++ [digitChar (n % 10)]
termination_by n
decreasing_by exact Nat.div_lt_self (by omega) (by omega)

/-- Decimal representation of an integer, as Python `str()`. -/
def intToChars (v : Int) : List Char :=
  if v < 0 then '-' :: natToDigits v.natAbs else natToDigits v.toNat

/-- One `(row, col, value)` line of `__str__`. -/
def serializeEntryLine (p : (Nat × Nat) × Int) : List Char :=
  '(' :: (natToDigits p.1.1 ++ (", ").toList ++ natToDigits p.1.2 ++
    (", ").toList ++ intToChars p.2 ++ [')'])

/-- The lines of `__str__`'s output: the two header lines then one line per
entry, in the dict's insertion order. -/
def serializeLines (m : CMatrix) : List (List Char) :=
  (("rows=").toList ++ natToDigits m.row_count) ::
    (("cols=").toList ++ natToDigits m.column_count) ::
    m.non_zero_elements.map serializeEntryLine

/-- Join lines with single newlines: `__str__` builds the text with a `"\n"`
after every line and then strips the trailing one. -/
def joinLines : List (List Char) → List Char
  | [] => []
  | [l] => l
  | l :: rest => l ++ '\n' :: joinLines rest

/-- `__str__` / `save_to_file`: the text written for a matrix. -/
def serialize (m : CMatrix) : List Char :=
  joinLines (serializeLines m)

/-! ### Association-list (Python dict) lemmas -/

/-- The key list of an association list. -/
def keysOf (l : List ((Nat × Nat) × Int)) : List (Nat × Nat) :=
  l.map Prod.fst

/-- Keys are pairwise distinct — the defining property of a Python dict. -/
def NodupKeys (l : List ((Nat × Nat) × Int)) : Prop :=
  (keysOf l).Nodup

theorem dictGet_dictSet (l : List ((Nat × Nat) × Int)) (k : Nat × Nat) (v : Int)
    (key : Nat × Nat) :
    dictGet (dictSet l k v) key = if k = key then some v else dictGet l key := by
  induction l with
  | nil => simp [dictSet, dictGet]
  | cons hd tl ih =>
    obtain ⟨k', w⟩ := hd
    simp only [dictSet]
    by_cases hk : k' = k
    · subst hk
      simp only [if_pos rfl, dictGet]
      by_cases hkey : k' = key <;> simp [hkey]
    · simp only [if_neg hk, dictGet]
      by_cases hkey : k' = key
      · subst hkey
        have hk2 : k ≠ k' := fun h => hk h.symm
        simp [hk2]
      · simp [hkey, ih]

theorem dictGet_eq_none_of_not_mem (l : List ((Nat × Nat) × Int)) (key : Nat × Nat)
    (h : key ∉ keysOf l) : dictGet l key = none := by
  induction l with
  | nil => rfl
  | cons hd tl ih =>
    obtain ⟨k', w⟩ := hd
    simp only [keysOf, List.map_cons, List.mem_cons, not_or] at h
    simp only [dictGet]
    rw [if_neg (fun hh => h.1 hh.symm)]
    exact ih h.2

theorem keysOf_dictSet (l : List ((Nat × Nat) × Int)) (k : Nat × Nat) (v : Int) :
    keysOf (dictSet l k v) = if k ∈ keysOf l then keysOf l else keysOf l ++ [k] := by
  induction l with
  | nil => simp [dictSet, keysOf]
  | cons hd tl ih =>
    obtain ⟨k', w⟩ := hd
    by_cases hk : k' = k
    · subst hk
      simp [dictSet, keysOf]
    · simp only [dictSet, if_neg hk, keysOf, List.map_cons]
      by_cases hmem : k ∈ keysOf tl
      · simp only [keysOf] at hmem ih
        simp [hmem, ih, List.mem_cons, Ne.symm hk]
      · simp only [keysOf] at hmem ih
        simp [hmem, ih, List.mem_cons, Ne.symm hk]

theorem nodupKeys_dictSet (l : List ((Nat × Nat) × Int)) (k : Nat × Nat) (v : Int)
    (h : NodupKeys l) : NodupKeys (dictSet l k v) := by
  unfold NodupKeys at h ⊢
  rw [keysOf_dictSet]
  by_cases hmem : k ∈ keysOf l
  · simpa [hmem] using h
  · simp only [hmem, if_false]
    simpa [List.nodup_append] using ⟨h, hmem⟩

theorem mem_dictSet (l : List ((Nat × Nat) × Int)) (k : Nat × Nat) (v : Int)
    (p : (Nat × Nat) × Int) (hp : p ∈ dictSet l k v) : p ∈ l ∨ p = (k, v) := by
  induction l with
  | nil => simpa [dictSet] using hp
  | cons hd tl ih =>
    obtain ⟨k', w⟩ := hd
    by_cases hk : k' = k
    · subst hk
      simp only [dictSet, if_true, eq_self_iff_true, List.mem_cons] at hp
      rcases hp with h | h
      · exact Or.inr h
      · exact Or.inl (List.mem_cons_of_mem _ h)
    · simp only [dictSet, if_neg hk, List.mem_cons] at hp
      rcases hp with h | h
      · exact Or.inl (h ▸ List.mem_cons_self _ _)
      · rcases ih h with h2 | h2
        · exact Or.inl (List.mem_cons_of_mem _ h2)
        · exact Or.inr h2

/-! ### `set_value` lemmas -/

theorem get_value_set_value (m : CMatrix) (r c : Nat) (v : Int) (r' c' : Nat) :
    (m.set_value r c v).get_value r' c' =
      if (r, c) = (r', c') then v else m.get_value r' c' := by
  unfold CMatrix.get_value CMatrix.set_value
  rw [dictGet_dictSet]
  by_cases h : ((r, c) : Nat × Nat) = (r', c')
  · simp [h]
  · simp [h]

theorem row_count_set_value (m : CMatrix) (r c : Nat) (v : Int) :
    (m.set_value r c v).row_count = max m.row_count (r + 1) := rfl

theorem column_count_set_value (m : CMatrix) (r c : Nat) (v : Int) :
    (m.set_value r c v).column_count = max m.column_count (c + 1) := rfl

/-! ### Invariants: in-bounds keys, nodup keys -/

/-- Every stored coordinate is inside the matrix dimensions. -/
def InBounds (m : CMatrix) : Prop :=
  ∀ p ∈ m.non_zero_elements, p.1.1 < m.row_count ∧ p.1.2 < m.column_count

/-- The data-model invariant: in-bounds coordinates with pairwise-distinct keys. -/
def WF (m : CMatrix) : Prop :=
  InBounds m ∧ NodupKeys m.non_zero_elements

instance (m : CMatrix) : Decidable (InBounds m) :=
  inferInstanceAs (Decidable (∀ p ∈ m.non_zero_elements, _ ∧ _))

instance (l : List ((Nat × Nat) × Int)) : Decidable (NodupKeys l) :=
  inferInstanceAs (Decidable (List.Nodup _))

instance (m : CMatrix) : Decidable (WF m) :=
  inferInstanceAs (Decidable (_ ∧ _))

theorem inBounds_set_value (m : CMatrix) (r c : Nat) (v : Int) (h : InBounds m) :
    InBounds (m.set_value r c v) := by
  intro p hp
  rcases mem_dictSet _ _ _ _ hp with hmem | rfl
  · rcases h p hmem with ⟨h1, h2⟩
    exact ⟨lt_of_lt_of_le h1 (le_max_left _ _), lt_of_lt_of_le h2 (le_max_left _ _)⟩
  · exact ⟨lt_of_lt_of_le (Nat.lt_succ_self r) (le_max_right _ _),
      lt_of_lt_of_le (Nat.lt_succ_self c) (le_max_right _ _)⟩

theorem nodupKeys_set_value (m : CMatrix) (r c : Nat) (v : Int)
    (h : NodupKeys m.non_zero_elements) :
    NodupKeys (m.set_value r c v).non_zero_elements :=
  nodupKeys_dictSet _ _ _ h

/-! ### Folding `set_value` over entry lists -/

/-- Set a list of (coordinate, value) pairs in order — the shape of
`_copy_non_zero_elements` and of the parser's entry application. -/
def applyTriples (l : List ((Nat × Nat) × Int)) (m : CMatrix) : CMatrix :=
  l.foldl (fun t p => t.set_value p.1.1 p.1.2 p.2) m

/-- The value of the LAST binding of a key in a list of pairs, if any —
the semantics of writing the pairs into a dict in order. -/
def lookupLast : List ((Nat × Nat) × Int) → (Nat × Nat) → Option Int
  | [], _ => none
  | (k, v) :: rest, key =>
    match lookupLast rest key with
    | some w => some w
    | none => if k = key then some v else none

theorem copy_non_zero_elements_eq (src target : CMatrix) :
    src.copy_non_zero_elements target = applyTriples src.non_zero_elements target := rfl

theorem get_value_applyTriples (l : List ((Nat × Nat) × Int)) (m : CMatrix) (r c : Nat) :
    (applyTriples l m).get_value r c = (lookupLast l (r, c)).getD (m.get_value r c) := by
  induction l generalizing m with
  | nil => simp [applyTriples, lookupLast]
  | cons hd tl ih =>
    obtain ⟨k, v⟩ := hd
    have hstep : applyTriples ((k, v) :: tl) m = applyTriples tl (m.set_value k.1 k.2 v) := rfl
    rw [hstep, ih]
    simp only [lookupLast]
    cases hlast : lookupLast tl (r, c) with
    | some w => simp
    | none =>
      simp only [Option.getD_none]
      rw [get_value_set_value]
      by_cases hk : k = (r, c)
      · simp [hk]
      · have : (k.1, k.2) ≠ ((r, c) : Nat × Nat) := by
          simpa using hk
        simp [hk, this]

theorem nodupKeys_lookupLast_eq_dictGet (l : List ((Nat × Nat) × Int))
    (h : NodupKeys l) (key : Nat × Nat) : lookupLast l key = dictGet l key := by
  induction l with
  | nil => rfl
  | cons hd tl ih =>
    obtain ⟨k, v⟩ := hd
    have h2 : (k :: List.map Prod.fst tl).Nodup := h
    have hnk : k ∉ keysOf tl := (List.nodup_cons.mp h2).1
    have htl : NodupKeys tl := (List.nodup_cons.mp h2).2
    simp only [lookupLast, dictGet, ih htl]
    by_cases hk : k = key
    · subst hk
      rw [dictGet_eq_none_of_not_mem tl k hnk]
    · cases hget : dictGet tl key <;> simp [hk]

theorem row_count_applyTriples (l : List ((Nat × Nat) × Int)) (m : CMatrix) :
    (applyTriples l m).row_count = l.foldl (fun a p => max a (p.1.1 + 1)) m.row_count := by
  induction l generalizing m with
  | nil => rfl
  | cons hd tl ih =>
    obtain ⟨k, v⟩ := hd
    have hstep : applyTriples ((k, v) :: tl) m = applyTriples tl (m.set_value k.1 k.2 v) := rfl
    rw [hstep, ih]
    rfl

theorem column_count_applyTriples (l : List ((Nat × Nat) × Int)) (m : CMatrix) :
    (applyTriples l m).column_count = l.foldl (fun a p => max a (p.1.2 + 1)) m.column_count := by
  induction l generalizing m with
  | nil => rfl
  | cons hd tl ih =>
    obtain ⟨k, v⟩ := hd
    have hstep : applyTriples ((k, v) :: tl) m = applyTriples tl (m.set_value k.1 k.2 v) := rfl
    rw [hstep, ih]
    rfl

theorem foldl_max_eq_self (l : List ((Nat × Nat) × Int)) (f : (Nat × Nat) × Int → Nat)
    (a : Nat) (h : ∀ p ∈ l, f p ≤ a) :
    l.foldl (fun b p => max b (f p)) a = a := by
  induction l generalizing a with
  | nil => rfl
  | cons hd tl ih =>
    simp only [List.foldl_cons]
    rw [Nat.max_eq_left (h hd (List.mem_cons_self _ _))]
    exact ih a (fun p hp => h p (List.mem_cons_of_mem _ hp))

theorem hasKey_applyTriples (l : List ((Nat × Nat) × Int)) (m : CMatrix) (key : Nat × Nat) :
    (dictGet (applyTriples l m).non_zero_elements key).isSome = true ↔
      (dictGet m.non_zero_elements key).isSome = true ∨ key ∈ keysOf l := by
  induction l generalizing m with
  | nil => simp [applyTriples, keysOf]
  | cons hd tl ih =>
    obtain ⟨k, v⟩ := hd
    have hstep : applyTriples ((k, v) :: tl) m = applyTriples tl (m.set_value k.1 k.2 v) := rfl
    rw [hstep, ih]
    unfold CMatrix.set_value
    simp only [keysOf, List.map_cons, List.mem_cons]
    rw [dictGet_dictSet]
    constructor
    · rintro (h | h)
      · by_cases hk : ((k.1, k.2) : Nat × Nat) = key
        · exact Or.inr (Or.inl hk.symm)
        · rw [if_neg hk] at h
          exact Or.inl h
      · exact Or.inr (Or.inr h)
    · rintro (h | h | h)
      · by_cases hk : ((k.1, k.2) : Nat × Nat) = key
        · rw [if_pos hk]; exact Or.inl rfl
        · rw [if_neg hk]; exact Or.inl h
      · rw [if_pos (by simp [h])]
        exact Or.inl rfl
      · exact Or.inr h

theorem inBounds_applyTriples (l : List ((Nat × Nat) × Int)) (m : CMatrix)
    (h : InBounds m) : InBounds (applyTriples l m) := by
  induction l generalizing m with
  | nil => exact h
  | cons hd tl ih =>
    obtain ⟨k, v⟩ := hd
    exact ih _ (inBounds_set_value m k.1 k.2 v h)

theorem nodupKeys_applyTriples (l : List ((Nat × Nat) × Int)) (m : CMatrix)
    (h : NodupKeys m.non_zero_elements) :
    NodupKeys (applyTriples l m).non_zero_elements := by
  induction l generalizing m with
  | nil => exact h
  | cons hd tl ih =>
    obtain ⟨k, v⟩ := hd
    exact ih _ (nodupKeys_set_value m k.1 k.2 v h)

/-! ### The accumulate fold of `add` / `subtract` -/

/-- The second loop of `add`/`subtract`: combine each of the other matrix's
entries into the result with `op` (addition or subtraction). -/
def accumulate (op : Int → Int → Int) (l : List ((Nat × Nat) × Int)) (m : CMatrix) : CMatrix :=
  l.foldl (fun res p => res.set_value p.1.1 p.1.2 (op (res.get_value p.1.1 p.1.2) p.2)) m

theorem add_eq_ok (m other : CMatrix) (h1 : m.row_count = other.row_count)
    (h2 : m.column_count = other.column_count) :
    m.add other = Except.ok (accumulate (fun a b => a + b) other.non_zero_elements
      (applyTriples m.non_zero_elements m.create_empty_matrix)) := by
  simp [CMatrix.add, CMatrix.check_dimensions, h1, h2, accumulate, applyTriples,
    CMatrix.copy_non_zero_elements]

theorem add_eq_error (m other : CMatrix)
    (h : m.row_count ≠ other.row_count ∨ m.column_count ≠ other.column_count) :
    m.add other = Except.error (MatrixError.dimensionMismatch true) := by
  rcases h with h | h <;>
    simp [CMatrix.add, CMatrix.check_dimensions, h]

theorem subtract_eq_ok (m other : CMatrix) (h1 : m.row_count = other.row_count)
    (h2 : m.column_count = other.column_count) :
    m.subtract other = Except.ok (accumulate (fun a b => a - b) other.non_zero_elements
      (applyTriples m.non_zero_elements m.create_empty_matrix)) := by
  simp [CMatrix.subtract, CMatrix.check_dimensions, h1, h2, accumulate, applyTriples,
    CMatrix.copy_non_zero_elements]

theorem subtract_eq_error (m other : CMatrix)
    (h : m.row_count ≠ other.row_count ∨ m.column_count ≠ other.column_count) :
    m.subtract other = Except.error (MatrixError.dimensionMismatch false) := by
  rcases h with h | h <;>
    simp [CMatrix.subtract, CMatrix.check_dimensions, h]

theorem get_value_accumulate (op : Int → Int → Int) (l : List ((Nat × Nat) × Int))
    (hnd : NodupKeys l) (m : CMatrix) (r c : Nat) :
    (accumulate op l m).get_value r c =
      match dictGet l (r, c) with
      | some v => op (m.get_value r c) v
      | none => m.get_value r c := by
  induction l generalizing m with
  | nil => simp [accumulate, dictGet]
  | cons hd tl ih =>
    obtain ⟨⟨kr, kc⟩, v⟩ := hd
    have h2 : (((kr, kc) : Nat × Nat) :: List.map Prod.fst tl).Nodup := hnd
    have hnk : ((kr, kc) : Nat × Nat) ∉ keysOf tl := (List.nodup_cons.mp h2).1
    have htl : NodupKeys tl := (List.nodup_cons.mp h2).2
    have hstep : accumulate op (((kr, kc), v) :: tl) m =
        accumulate op tl (m.set_value kr kc (op (m.get_value kr kc) v)) := rfl
    rw [hstep, ih htl]
    simp only [dictGet]
    by_cases hk : ((kr, kc) : Nat × Nat) = (r, c)
    · rw [Prod.mk.injEq] at hk
      obtain ⟨rfl, rfl⟩ := hk
      rw [dictGet_eq_none_of_not_mem tl (kr, kc) hnk]
      simp only [if_pos rfl]
      rw [get_value_set_value]
      simp
    · rw [if_neg hk]
      cases hget : dictGet tl (r, c) <;>
        · rw [get_value_set_value]
          simp [hk]

theorem row_count_accumulate (op : Int → Int → Int) (l : List ((Nat × Nat) × Int))
    (m : CMatrix) :
    (accumulate op l m).row_count = l.foldl (fun a p => max a (p.1.1 + 1)) m.row_count := by
  induction l generalizing m with
  | nil => rfl
  | cons hd tl ih =>
    obtain ⟨k, v⟩ := hd
    have hstep : accumulate op ((k, v) :: tl) m =
        accumulate op tl (m.set_value k.1 k.2 (op (m.get_value k.1 k.2) v)) := rfl
    rw [hstep, ih]
    rfl

theorem column_count_accumulate (op : Int → Int → Int) (l : List ((Nat × Nat) × Int))
    (m : CMatrix) :
    (accumulate op l m).column_count =
      l.foldl (fun a p => max a (p.1.2 + 1)) m.column_count := by
  induction l generalizing m with
  | nil => rfl
  | cons hd tl ih =>
    obtain ⟨k, v⟩ := hd
    have hstep : accumulate op ((k, v) :: tl) m =
        accumulate op tl (m.set_value k.1 k.2 (op (m.get_value k.1 k.2) v)) := rfl
    rw [hstep, ih]
    rfl

theorem hasKey_accumulate (op : Int → Int → Int) (l : List ((Nat × Nat) × Int))
    (m : CMatrix) (key : Nat × Nat) :
    (dictGet (accumulate op l m).non_zero_elements key).isSome = true ↔
      (dictGet m.non_zero_elements key).isSome = true ∨ key ∈ keysOf l := by
  induction l generalizing m with
  | nil => simp [accumulate, keysOf]
  | cons hd tl ih =>
    obtain ⟨k, v⟩ := hd
    have hstep : accumulate op ((k, v) :: tl) m =
        accumulate op tl (m.set_value k.1 k.2 (op (m.get_value k.1 k.2) v)) := rfl
    rw [hstep, ih]
    unfold CMatrix.set_value
    simp only [keysOf, List.map_cons, List.mem_cons]
    rw [dictGet_dictSet]
    constructor
    · rintro (h | h)
      · by_cases hk : ((k.1, k.2) : Nat × Nat) = key
        · exact Or.inr (Or.inl hk.symm)
        · rw [if_neg hk] at h
          exact Or.inl h
      · exact Or.inr (Or.inr h)
    · rintro (h | h | h)
      · by_cases hk : ((k.1, k.2) : Nat × Nat) = key
        · rw [if_pos hk]; exact Or.inl rfl
        · rw [if_neg hk]; exact Or.inl h
      · rw [if_pos (by simp [h])]
        exact Or.inl rfl
      · exact Or.inr h

theorem inBounds_accumulate (op : Int → Int → Int) (l : List ((Nat × Nat) × Int))
    (m : CMatrix) (h : InBounds m) : InBounds (accumulate op l m) := by
  induction l generalizing m with
  | nil => exact h
  | cons hd tl ih =>
    obtain ⟨k, v⟩ := hd
    exact ih _ (inBounds_set_value m k.1 k.2 _ h)

theorem nodupKeys_accumulate (op : Int → Int → Int) (l : List ((Nat × Nat) × Int))
    (m : CMatrix) (h : NodupKeys m.non_zero_elements) :
    NodupKeys (accumulate op l m).non_zero_elements := by
  induction l generalizing m with
  | nil => exact h
  | cons hd tl ih =>
    obtain ⟨k, v⟩ := hd
    exact ih _ (nodupKeys_set_value m k.1 k.2 _ h)

/-! ### `multiply` lemmas -/

theorem get_value_multiplyInner_aux (other : CMatrix) (row col : Nat) (v : Int)
    (n : Nat) (res : CMatrix) (r j : Nat) :
    (((List.range n).foldl (CMatrix.multiplyStep other row col v) res).get_value r j) =
      res.get_value r j +
        (if r = row ∧ j < n then v * other.get_value col j else 0) := by
  induction n generalizing res with
  | zero => simp
  | succ n ih =>
    rw [List.range_succ, List.foldl_append]
    simp only [List.foldl_cons, List.foldl_nil]
    set R := (List.range n).foldl (CMatrix.multiplyStep other row col v) res with hR
    unfold CMatrix.multiplyStep
    by_cases hov : other.get_value col n ≠ 0
    · rw [if_pos hov]
      rw [get_value_set_value]
      by_cases hrj : ((row, n) : Nat × Nat) = (r, j)
      · rw [Prod.mk.injEq] at hrj
        obtain ⟨rfl, rfl⟩ := hrj
        rw [if_pos rfl] at *
        rw [ih]
        simp [Nat.lt_succ_self]
      · rw [if_neg hrj, ih]
        rw [Prod.mk.injEq] at hrj
        by_cases hr : r = row
        · subst hr
          have hjn : j ≠ n := fun hj => hrj ⟨rfl, hj.symm⟩
          by_cases hlt : j < n
          · simp [hlt, Nat.lt_succ_of_lt hlt]
          · have : ¬ j < n + 1 := by omega
            simp [hlt, this]
        · simp [hr]
    · rw [if_neg hov]
      push_neg at hov
      rw [ih]
      by_cases hr : r = row
      · subst hr
        by_cases hlt : j < n
        · simp [hlt, Nat.lt_succ_of_lt hlt]
        · by_cases hj : j = n
          · subst hj
            simp [hlt, hov]
          · have h1 : ¬ j < n + 1 := by omega
            simp [hlt, h1]
      · simp [hr]

theorem get_value_multiplyInner (other : CMatrix) (row col : Nat) (v : Int)
    (res : CMatrix) (r j : Nat) :
    (CMatrix.multiplyInner other row col v res).get_value r j =
      res.get_value r j +
        (if r = row ∧ j < other.column_count then v * other.get_value col j else 0) :=
  get_value_multiplyInner_aux other row col v other.column_count res r j

theorem multiplyStep_eq (other : CMatrix) (row col : Nat) (v : Int) (res : CMatrix)
    (k : Nat) :
    CMatrix.multiplyStep other row col v res k =
      if other.get_value col k ≠ 0 then
        res.set_value row k (res.get_value row k + v * other.get_value col k)
      else res := rfl

theorem dims_multiplyInner_aux (other : CMatrix) (row col : Nat) (v : Int)
    (n : Nat) (res : CMatrix) (h1 : row < res.row_count) (h2 : n ≤ res.column_count) :
    (((List.range n).foldl (CMatrix.multiplyStep other row col v) res).row_count
        = res.row_count) ∧
      (((List.range n).foldl (CMatrix.multiplyStep other row col v) res).column_count
        = res.column_count) := by
  induction n generalizing res with
  | zero => simp
  | succ n ih =>
    rw [List.range_succ, List.foldl_append]
    simp only [List.foldl_cons, List.foldl_nil]
    obtain ⟨ihr, ihc⟩ := ih res h1 (by omega)
    rw [multiplyStep_eq]
    by_cases hov : other.get_value col n ≠ 0
    · rw [if_pos hov]
      constructor
      · rw [row_count_set_value, ihr]
        omega
      · rw [column_count_set_value, ihc]
        omega
    · rw [if_neg hov]
      exact ⟨ihr, ihc⟩

theorem dims_multiplyInner (other : CMatrix) (row col : Nat) (v : Int)
    (res : CMatrix) (h1 : row < res.row_count) (h2 : other.column_count ≤ res.column_count) :
    (CMatrix.multiplyInner other row col v res).row_count = res.row_count ∧
      (CMatrix.multiplyInner other row col v res).column_count = res.column_count :=
  dims_multiplyInner_aux other row col v other.column_count res h1 h2

/-- The contribution of the entries with row `r` to result position `(r, j)`:
the sum the outer loop of `multiply` accumulates there. -/
def rowContrib (other : CMatrix) (r j : Nat) : List ((Nat × Nat) × Int) → Int
  | [] => 0
  | (k, v) :: rest =>
    (if k.1 = r then v * other.get_value k.2 j else 0) + rowContrib other r j rest

theorem get_value_multiplyFold (other : CMatrix) (l : List ((Nat × Nat) × Int))
    (res : CMatrix) (r j : Nat) (hj : j < other.column_count) :
    ((l.foldl (fun res p => CMatrix.multiplyInner other p.1.1 p.1.2 p.2 res) res).get_value r j)
      = res.get_value r j + rowContrib other r j l := by
  induction l generalizing res with
  | nil => simp [rowContrib]
  | cons hd tl ih =>
    obtain ⟨⟨kr, kc⟩, v⟩ := hd
    simp only [List.foldl_cons]
    rw [ih, get_value_multiplyInner]
    simp only [rowContrib]
    by_cases hr : kr = r
    · rw [if_pos hr, if_pos (⟨hr.symm, hj⟩ : r = kr ∧ j < other.column_count)]
      ring
    · rw [if_neg hr, if_neg (fun h : r = kr ∧ j < other.column_count => hr h.1.symm)]
      ring

theorem dims_multiplyFold (other : CMatrix) (l : List ((Nat × Nat) × Int))
    (res : CMatrix) (hrow : ∀ p ∈ l, p.1.1 < res.row_count)
    (hcol : other.column_count ≤ res.column_count) :
    ((l.foldl (fun res p => CMatrix.multiplyInner other p.1.1 p.1.2 p.2 res) res).row_count
        = res.row_count) ∧
      ((l.foldl (fun res p => CMatrix.multiplyInner other p.1.1 p.1.2 p.2 res) res).column_count
        = res.column_count) := by
  induction l generalizing res with
  | nil => exact ⟨rfl, rfl⟩
  | cons hd tl ih =>
    obtain ⟨⟨kr, kc⟩, v⟩ := hd
    simp only [List.foldl_cons]
    obtain ⟨hir, hic⟩ := dims_multiplyInner other kr kc v res
      (hrow _ (List.mem_cons_self _ _)) hcol
    obtain ⟨htr, htc⟩ := ih (CMatrix.multiplyInner other kr kc v res)
      (fun p hp => hir ▸ hrow p (List.mem_cons_of_mem _ hp)) (hic ▸ hcol)
    exact ⟨htr.trans hir, htc.trans hic⟩

theorem rowContrib_eq_sum (other : CMatrix) (l : List ((Nat × Nat) × Int))
    (hnd : NodupKeys l) (n : Nat) (hb : ∀ p ∈ l, p.1.2 < n) (r j : Nat) :
    rowContrib other r j l =
      ∑ k ∈ Finset.range n, (dictGet l (r, k)).getD 0 * other.get_value k j := by
  induction l with
  | nil => simp [rowContrib, dictGet]
  | cons hd tl ih =>
    obtain ⟨⟨kr, kc⟩, v⟩ := hd
    have h2 : (((kr, kc) : Nat × Nat) :: List.map Prod.fst tl).Nodup := hnd
    have hnk : ((kr, kc) : Nat × Nat) ∉ keysOf tl := (List.nodup_cons.mp h2).1
    have htl : NodupKeys tl := (List.nodup_cons.mp h2).2
    have hkc : kc < n := (hb _ (List.mem_cons_self _ _)).trans_le (le_refl n)
    have ihtl := ih htl (fun p hp => hb p (List.mem_cons_of_mem _ hp))
    simp only [rowContrib, ihtl]
    by_cases hr : kr = r
    · subst hr
      have hterm : ∀ k ∈ Finset.range n,
          (dictGet (((kr, kc), v) :: tl) (kr, k)).getD 0 * other.get_value k j =
            (dictGet tl (kr, k)).getD 0 * other.get_value k j +
              (if k = kc then v * other.get_value kc j else 0) := by
        intro k _
        simp only [dictGet]
        by_cases hk : k = kc
        · subst hk
          rw [if_pos rfl, if_pos rfl]
          rw [dictGet_eq_none_of_not_mem tl (kr, k) hnk]
          simp
        · rw [if_neg (by simp [Ne.symm hk]), if_neg hk]
          simp
      rw [Finset.sum_congr rfl hterm, Finset.sum_add_distrib]
      rw [Finset.sum_ite_eq' (Finset.range n) kc (fun k => v * other.get_value kc j)]
      simp only [Finset.mem_range, hkc, if_pos, if_true]
      ring
    · have hterm : ∀ k ∈ Finset.range n,
          (dictGet (((kr, kc), v) :: tl) (r, k)).getD 0 * other.get_value k j =
            (dictGet tl (r, k)).getD 0 * other.get_value k j := by
        intro k _
        simp only [dictGet]
        rw [if_neg (by simp [hr])]
      rw [Finset.sum_congr rfl hterm]
      simp [hr]

/-! ### Parsing lemmas -/

/-- The triples the entry parser extracts, in file order (blank and
non-matching lines contribute nothing; the latter only occur when the
parser has already failed). -/
def entryTriples : List (List Char) → List ((Nat × Nat) × Int)
  | [] => []
  | l :: rest =>
    if pyStrip l = [] then entryTriples rest
    else
      match matchEntry (pyStrip l) with
      | some p => p :: entryTriples rest
      | none => entryTriples rest

/-- A line the entry parser accepts: blank after stripping, or matched by
the entry regex. -/
def GoodLine (l : List Char) : Prop :=
  pyStrip l = [] ∨ (matchEntry (pyStrip l)).isSome = true

instance (l : List Char) : Decidable (GoodLine l) :=
  inferInstanceAs (Decidable (_ ∨ _))

theorem parse_non_zero_elements_ok (ls : List (List Char)) (i : Nat) (m : CMatrix)
    (h : ∀ l ∈ ls, GoodLine l) :
    parse_non_zero_elements ls i m = Except.ok (applyTriples (entryTriples ls) m) := by
  induction ls generalizing i m with
  | nil => rfl
  | cons hd tl ih =>
    have hhd := h hd (List.mem_cons_self _ _)
    have htl : ∀ l ∈ tl, GoodLine l := fun l hl => h l (List.mem_cons_of_mem _ hl)
    simp only [parse_non_zero_elements, entryTriples]
    by_cases hblank : pyStrip hd = []
    · rw [if_pos hblank, if_pos hblank]
      exact ih (i + 1) m htl
    · rw [if_neg hblank, if_neg hblank]
      rcases hhd with hb | hm
      · exact absurd hb hblank
      · obtain ⟨p, hp⟩ := Option.isSome_iff_exists.mp hm
        rw [hp]
        have hstep : applyTriples (p :: entryTriples tl) m =
            applyTriples (entryTriples tl) (m.set_value p.1.1 p.1.2 p.2) := rfl
        rw [hstep]
        exact ih (i + 1) _ htl

theorem parse_non_zero_elements_ok_inv (ls : List (List Char)) (i : Nat) (m m2 : CMatrix)
    (h : parse_non_zero_elements ls i m = Except.ok m2) :
    m2 = applyTriples (entryTriples ls) m := by
  induction ls generalizing i m with
  | nil =>
    simp only [parse_non_zero_elements] at h
    cases h
    rfl
  | cons hd tl ih =>
    simp only [parse_non_zero_elements, entryTriples] at h ⊢
    by_cases hblank : pyStrip hd = []
    · rw [if_pos hblank] at h
      rw [if_pos hblank]
      exact ih (i + 1) m h
    · rw [if_neg hblank] at h
      rw [if_neg hblank]
      cases hm : matchEntry (pyStrip hd) with
      | some p =>
        rw [hm] at h
        have hstep : applyTriples (p :: entryTriples tl) m =
            applyTriples (entryTriples tl) (m.set_value p.1.1 p.1.2 p.2) := rfl
        rw [hstep]
        exact ih (i + 1) _ h
      | none =>
        rw [hm] at h
        cases h

theorem parse_non_zero_elements_ne_dim_error (ls : List (List Char)) (i : Nat)
    (m : CMatrix) :
    parse_non_zero_elements ls i m ≠ Except.error MatrixError.invalidDimensionFormat ∧
      parse_non_zero_elements ls i m ≠ Except.error MatrixError.notEnoughLines := by
  induction ls generalizing i m with
  | nil => simp [parse_non_zero_elements]
  | cons hd tl ih =>
    simp only [parse_non_zero_elements]
    by_cases hblank : pyStrip hd = []
    · rw [if_pos hblank]
      exact ih (i + 1) m
    · rw [if_neg hblank]
      cases hm : matchEntry (pyStrip hd) with
      | some p => exact ih (i + 1) _
      | none => simp

theorem parse_non_zero_elements_first_bad (good : List (List Char)) (bad : List Char)
    (rest : List (List Char)) (i : Nat) (m : CMatrix)
    (hgood : ∀ l ∈ good, GoodLine l)
    (hb1 : pyStrip bad ≠ []) (hb2 : matchEntry (pyStrip bad) = none) :
    parse_non_zero_elements (good ++ bad :: rest) i m =
      Except.error (MatrixError.invalidLineFormat (i + good.length + 1) (pyStrip bad)) := by
  induction good generalizing i m with
  | nil =>
    simp only [List.nil_append, parse_non_zero_elements]
    rw [if_neg hb1, hb2]
    simp
  | cons hd tl ih =>
    have hhd := hgood hd (List.mem_cons_self _ _)
    have htl : ∀ l ∈ tl, GoodLine l := fun l hl => hgood l (List.mem_cons_of_mem _ hl)
    simp only [List.cons_append, parse_non_zero_elements, List.append_eq]
    have hnum : i + 1 + tl.length + 1 = i + (hd :: tl).length + 1 := by
      simp only [List.length_cons]
      omega
    by_cases hblank : pyStrip hd = []
    · rw [if_pos hblank]
      have hgoal := ih (i + 1) m htl
      rw [hnum] at hgoal
      exact hgoal
    · rw [if_neg hblank]
      rcases hhd with hb | hm
      · exact absurd hb hblank
      · obtain ⟨p, hp⟩ := Option.isSome_iff_exists.mp hm
        rw [hp]
        have hgoal := ih (i + 1) (m.set_value p.1.1 p.1.2 p.2) htl
        rw [hnum] at hgoal
        exact hgoal

theorem load_from_lines_cons (l0 l1 : List Char) (rest : List (List Char)) :
    load_from_lines (l0 :: l1 :: rest) =
      match matchRows (pyStrip l0), matchCols (pyStrip l1) with
      | some total_rows, some total_cols =>
        parse_non_zero_elements rest 2 ⟨total_rows, total_cols, []⟩
      | some _, none => Except.error MatrixError.invalidDimensionFormat
      | none, _ => Except.error MatrixError.invalidDimensionFormat := by
  have hlen : ¬ (l0 :: l1 :: rest).length < 2 := by
    simp only [List.length_cons]
    omega
  simp only [load_from_lines, if_neg hlen]
  rfl

theorem load_from_lines_short (lines : List (List Char)) (h : lines.length < 2) :
    load_from_lines lines = Except.error MatrixError.notEnoughLines := by
  simp [load_from_lines, h]

/-! ### Result characterizations for the arithmetic operations -/

/-- The coordinate is present as an explicit entry of the mapping. -/
def hasKey (m : CMatrix) (key : Nat × Nat) : Prop :=
  (dictGet m.non_zero_elements key).isSome = true

instance (m : CMatrix) (key : Nat × Nat) : Decidable (hasKey m key) :=
  inferInstanceAs (Decidable (_ = true))

theorem isSome_dictGet_iff_mem_keys (l : List ((Nat × Nat) × Int)) (key : Nat × Nat) :
    (dictGet l key).isSome = true ↔ key ∈ keysOf l := by
  induction l with
  | nil => simp [dictGet, keysOf]
  | cons hd tl ih =>
    obtain ⟨k, v⟩ := hd
    simp only [dictGet, keysOf, List.map_cons, List.mem_cons]
    by_cases hk : k = key
    · simp [hk]
    · rw [if_neg hk]
      unfold keysOf at ih
      rw [ih]
      have hne : ¬ key = k := fun h => hk h.symm
      simp [hne]

theorem multiply_eq_ok (m other : CMatrix) (h : m.column_count = other.row_count) :
    m.multiply other = Except.ok (m.non_zero_elements.foldl
      (fun res p => CMatrix.multiplyInner other p.1.1 p.1.2 p.2 res)
      ⟨m.row_count, other.column_count, []⟩) := by
  simp [CMatrix.multiply, h]

theorem multiply_eq_error (m other : CMatrix) (h : m.column_count ≠ other.row_count) :
    m.multiply other = Except.error MatrixError.multiplyDimensionMismatch := by
  simp [CMatrix.multiply, h]

theorem get_value_empty (rc cc : Nat) (r c : Nat) :
    (CMatrix.mk rc cc []).get_value r c = 0 := rfl

/-- The result value of the copy-then-accumulate shape shared by `add` and
`subtract`, at every coordinate. -/
theorem get_value_accumulate_copy (op : Int → Int → Int) (hop : ∀ x, op x 0 = x)
    (a b : CMatrix) (hnda : NodupKeys a.non_zero_elements)
    (hndb : NodupKeys b.non_zero_elements) (r c : Nat) :
    (accumulate op b.non_zero_elements
        (applyTriples a.non_zero_elements a.create_empty_matrix)).get_value r c =
      op (a.get_value r c) (b.get_value r c) := by
  rw [get_value_accumulate op _ hndb, get_value_applyTriples,
    nodupKeys_lookupLast_eq_dictGet _ hnda]
  have hbase : (dictGet a.non_zero_elements (r, c)).getD
      (a.create_empty_matrix.get_value r c) = a.get_value r c := by
    cases hga : dictGet a.non_zero_elements (r, c) <;>
      simp [CMatrix.get_value, CMatrix.create_empty_matrix, dictGet, hga]
  rw [hbase]
  cases hgb : dictGet b.non_zero_elements (r, c) with
  | none =>
    simp only [CMatrix.get_value, hgb, Option.getD_none]
    exact (hop _).symm
  | some v => simp [CMatrix.get_value, hgb]

/-- The dimensions of the copy-then-accumulate result: unchanged from `a`'s
when both operands' entries are in bounds and the dimensions agree. -/
theorem dims_accumulate_copy (op : Int → Int → Int) (a b : CMatrix)
    (ha : InBounds a) (hb : InBounds b)
    (h1 : a.row_count = b.row_count) (h2 : a.column_count = b.column_count) :
    (accumulate op b.non_zero_elements
        (applyTriples a.non_zero_elements a.create_empty_matrix)).row_count = a.row_count ∧
      (accumulate op b.non_zero_elements
        (applyTriples a.non_zero_elements a.create_empty_matrix)).column_count
          = a.column_count := by
  have hcopyr : (applyTriples a.non_zero_elements a.create_empty_matrix).row_count
      = a.row_count := by
    rw [row_count_applyTriples]
    exact foldl_max_eq_self _ _ _ (fun p hp => (ha p hp).1)
  have hcopyc : (applyTriples a.non_zero_elements a.create_empty_matrix).column_count
      = a.column_count := by
    rw [column_count_applyTriples]
    exact foldl_max_eq_self _ _ _ (fun p hp => (ha p hp).2)
  constructor
  · rw [row_count_accumulate, hcopyr]
    exact foldl_max_eq_self _ _ _ (fun p hp => by
      have := (hb p hp).1
      omega)
  · rw [column_count_accumulate, hcopyc]
    exact foldl_max_eq_self _ _ _ (fun p hp => by
      have := (hb p hp).2
      omega)

/-- The explicit keys of the copy-then-accumulate result are exactly the
union of the operands' keys. -/
theorem hasKey_accumulate_copy (op : Int → Int → Int) (a b : CMatrix) (key : Nat × Nat) :
    hasKey (accumulate op b.non_zero_elements
        (applyTriples a.non_zero_elements a.create_empty_matrix)) key ↔
      hasKey a key ∨ hasKey b key := by
  unfold hasKey
  rw [hasKey_accumulate, hasKey_applyTriples]
  simp only [CMatrix.create_empty_matrix]
  rw [isSome_dictGet_iff_mem_keys a.non_zero_elements key,
    isSome_dictGet_iff_mem_keys b.non_zero_elements key]
  simp [dictGet]

/-- `WF` is preserved by the copy-then-accumulate result. -/
theorem wf_accumulate_copy (op : Int → Int → Int) (a b : CMatrix) :
    InBounds (accumulate op b.non_zero_elements
        (applyTriples a.non_zero_elements a.create_empty_matrix)) ∧
      NodupKeys (accumulate op b.non_zero_elements
        (applyTriples a.non_zero_elements a.create_empty_matrix)).non_zero_elements := by
  constructor
  · exact inBounds_accumulate _ _ _
      (inBounds_applyTriples _ _ (fun p hp => absurd hp (List.not_mem_nil p)))
  · exact nodupKeys_accumulate _ _ _
      (nodupKeys_applyTriples _ _ List.nodup_nil)

/-! ### Inversion lemmas for successful operations -/

theorem add_ok_inv (a b m : CMatrix) (h : a.add b = Except.ok m) :
    a.row_count = b.row_count ∧ a.column_count = b.column_count ∧
      m = accumulate (fun x y => x + y) b.non_zero_elements
        (applyTriples a.non_zero_elements a.create_empty_matrix) := by
  by_cases h1 : a.row_count = b.row_count
  · by_cases h2 : a.column_count = b.column_count
    · refine ⟨h1, h2, ?_⟩
      rw [add_eq_ok a b h1 h2] at h
      exact (Except.ok.inj h).symm
    · rw [add_eq_error a b (Or.inr h2)] at h
      cases h
  · rw [add_eq_error a b (Or.inl h1)] at h
    cases h

theorem subtract_ok_inv (a b m : CMatrix) (h : a.subtract b = Except.ok m) :
    a.row_count = b.row_count ∧ a.column_count = b.column_count ∧
      m = accumulate (fun x y => x - y) b.non_zero_elements
        (applyTriples a.non_zero_elements a.create_empty_matrix) := by
  by_cases h1 : a.row_count = b.row_count
  · by_cases h2 : a.column_count = b.column_count
    · refine ⟨h1, h2, ?_⟩
      rw [subtract_eq_ok a b h1 h2] at h
      exact (Except.ok.inj h).symm
    · rw [subtract_eq_error a b (Or.inr h2)] at h
      cases h
  · rw [subtract_eq_error a b (Or.inl h1)] at h
    cases h

theorem multiply_ok_inv (a b m : CMatrix) (h : a.multiply b = Except.ok m) :
    a.column_count = b.row_count ∧
      m = a.non_zero_elements.foldl
        (fun res p => CMatrix.multiplyInner b p.1.1 p.1.2 p.2 res)
        ⟨a.row_count, b.column_count, []⟩ := by
  by_cases hc : a.column_count = b.row_count
  · rw [multiply_eq_ok a b hc] at h
    exact ⟨hc, (Except.ok.inj h).symm⟩
  · rw [multiply_eq_error a b hc] at h
    cases h

theorem load_from_lines_ok_inv (lines : List (List Char)) (m : CMatrix)
    (h : load_from_lines lines = Except.ok m) :
    2 ≤ lines.length ∧
      ∃ R C, matchRows (pyStrip (lines.getD 0 [])) = some R ∧
        matchCols (pyStrip (lines.getD 1 [])) = some C ∧
        m = applyTriples (entryTriples (lines.drop 2)) ⟨R, C, []⟩ := by
  unfold load_from_lines at h
  by_cases hlen : lines.length < 2
  · rw [if_pos hlen] at h
    cases h
  · rw [if_neg hlen] at h
    cases hr : matchRows (pyStrip (lines.getD 0 [])) with
    | none =>
      rw [hr] at h
      cases h
    | some R =>
      cases hc : matchCols (pyStrip (lines.getD 1 [])) with
      | none =>
        rw [hr, hc] at h
        cases h
      | some C =>
        rw [hr, hc] at h
        exact ⟨by omega, R, C, rfl, rfl, parse_non_zero_elements_ok_inv _ _ _ _ h⟩

/-! ### Invariant preservation for `multiply`'s folds -/

theorem inBounds_multiplyStep (other : CMatrix) (row col : Nat) (v : Int)
    (res : CMatrix) (k : Nat) (h : InBounds res) :
    InBounds (CMatrix.multiplyStep other row col v res k) := by
  rw [multiplyStep_eq]
  by_cases hov : other.get_value col k ≠ 0
  · rw [if_pos hov]
    exact inBounds_set_value _ _ _ _ h
  · rw [if_neg hov]
    exact h

theorem nodupKeys_multiplyStep (other : CMatrix) (row col : Nat) (v : Int)
    (res : CMatrix) (k : Nat) (h : NodupKeys res.non_zero_elements) :
    NodupKeys (CMatrix.multiplyStep other row col v res k).non_zero_elements := by
  rw [multiplyStep_eq]
  by_cases hov : other.get_value col k ≠ 0
  · rw [if_pos hov]
    exact nodupKeys_set_value _ _ _ _ h
  · rw [if_neg hov]
    exact h

theorem inBounds_multiplyInner (other : CMatrix) (row col : Nat) (v : Int)
    (res : CMatrix) (h : InBounds res) :
    InBounds (CMatrix.multiplyInner other row col v res) := by
  unfold CMatrix.multiplyInner
  generalize List.range other.column_count = js
  induction js generalizing res with
  | nil => exact h
  | cons j tl ih => exact ih _ (inBounds_multiplyStep _ _ _ _ _ _ h)

theorem nodupKeys_multiplyInner (other : CMatrix) (row col : Nat) (v : Int)
    (res : CMatrix) (h : NodupKeys res.non_zero_elements) :
    NodupKeys (CMatrix.multiplyInner other row col v res).non_zero_elements := by
  unfold CMatrix.multiplyInner
  generalize List.range other.column_count = js
  induction js generalizing res with
  | nil => exact h
  | cons j tl ih => exact ih _ (nodupKeys_multiplyStep _ _ _ _ _ _ h)

theorem inBounds_multiplyFold (other : CMatrix) (l : List ((Nat × Nat) × Int))
    (res : CMatrix) (h : InBounds res) :
    InBounds (l.foldl (fun res p => CMatrix.multiplyInner other p.1.1 p.1.2 p.2 res) res) := by
  induction l generalizing res with
  | nil => exact h
  | cons hd tl ih => exact ih _ (inBounds_multiplyInner _ _ _ _ _ h)

theorem nodupKeys_multiplyFold (other : CMatrix) (l : List ((Nat × Nat) × Int))
    (res : CMatrix) (h : NodupKeys res.non_zero_elements) :
    NodupKeys ((l.foldl
      (fun res p => CMatrix.multiplyInner other p.1.1 p.1.2 p.2 res) res)).non_zero_elements := by
  induction l generalizing res with
  | nil => exact h
  | cons hd tl ih => exact ih _ (nodupKeys_multiplyInner _ _ _ _ _ h)

/-! ### Reachability through the class API -/

/-- Matrices obtainable through the class API: construction with given
dimensions, `set_value`, a successful `load_from_file`, and the three
arithmetic operations on reachable operands. -/
inductive Reachable : CMatrix → Prop where
  | construct (rc cc : Nat) : Reachable ⟨rc, cc, []⟩
  | set (m : CMatrix) (r c : Nat) (v : Int) : Reachable m → Reachable (m.set_value r c v)
  | load (text : List Char) (m : CMatrix) :
      load_from_text text = Except.ok m → Reachable m
  | add (a b m : CMatrix) : Reachable a → Reachable b →
      a.add b = Except.ok m → Reachable m
  | subtract (a b m : CMatrix) : Reachable a → Reachable b →
      a.subtract b = Except.ok m → Reachable m
  | multiply (a b m : CMatrix) : Reachable a → Reachable b →
      a.multiply b = Except.ok m → Reachable m

theorem inBounds_empty (rc cc : Nat) : InBounds (CMatrix.mk rc cc []) :=
  fun p hp => absurd hp (List.not_mem_nil p)

theorem wf_of_reachable (m : CMatrix) (h : Reachable m) : WF m := by
  induction h with
  | construct rc cc => exact ⟨inBounds_empty rc cc, List.nodup_nil⟩
  | set m r c v _ ih =>
    exact ⟨inBounds_set_value _ _ _ _ ih.1, nodupKeys_set_value _ _ _ _ ih.2⟩
  | load text m hok =>
    unfold load_from_text at hok
    obtain ⟨_, R, C, _, _, rfl⟩ := load_from_lines_ok_inv _ _ hok
    exact ⟨inBounds_applyTriples _ _ (inBounds_empty R C),
      nodupKeys_applyTriples _ _ List.nodup_nil⟩
  | add a b m _ _ hok iha ihb =>
    obtain ⟨_, _, rfl⟩ := add_ok_inv a b m hok
    exact wf_accumulate_copy _ a b
  | subtract a b m _ _ hok iha ihb =>
    obtain ⟨_, _, rfl⟩ := subtract_ok_inv a b m hok
    exact wf_accumulate_copy _ a b
  | multiply a b m _ _ hok iha ihb =>
    obtain ⟨_, rfl⟩ := multiply_ok_inv a b m hok
    exact ⟨inBounds_multiplyFold _ _ _ (inBounds_empty _ _),
      nodupKeys_multiplyFold _ _ _ List.nodup_nil⟩

/-! ### Claim theorems -/

/-- C1: `multiply(A, B)` fails with `DimensionMismatch` unless
`A.column_count == B.row_count`; on success the result has dimensions
`(A.row_count, B.column_count)` and `get(r, j)` is the dot product
`sum over k < A.column_count of A.get(r, k) * B.get(k, j)` for every
in-range `(r, j)`. -/
theorem claim_C1 (a b : CMatrix) (ha : WF a) :
    (a.column_count ≠ b.row_count →
      a.multiply b = Except.error MatrixError.multiplyDimensionMismatch) ∧
    (a.column_count = b.row_count →
      ∃ m, a.multiply b = Except.ok m ∧
        m.row_count = a.row_count ∧ m.column_count = b.column_count ∧
        ∀ r, r < a.row_count → ∀ j, j < b.column_count →
          m.get_value r j =
            ∑ k ∈ Finset.range a.column_count, a.get_value r k * b.get_value k j) := by
  constructor
  · exact fun h => multiply_eq_error a b h
  · intro h
    refine ⟨_, multiply_eq_ok a b h, ?_, ?_, ?_⟩
    · exact (dims_multiplyFold b a.non_zero_elements ⟨a.row_count, b.column_count, []⟩
        (fun p hp => (ha.1 p hp).1) (le_refl _)).1
    · exact (dims_multiplyFold b a.non_zero_elements ⟨a.row_count, b.column_count, []⟩
        (fun p hp => (ha.1 p hp).1) (le_refl _)).2
    · intro r hr j hj
      rw [get_value_multiplyFold b a.non_zero_elements _ r j hj, get_value_empty, zero_add,
        rowContrib_eq_sum b a.non_zero_elements ha.2 a.column_count
          (fun p hp => (ha.1 p hp).2) r j]
      rfl

/-- Witness for C1 at the spec's concrete scenario. -/
theorem claim_C1_witness :
    WF (CMatrix.mk 2 2 [((0, 0), 1), ((1, 1), 2)]) ∧
    (((CMatrix.mk 2 2 [((0, 0), 1), ((1, 1), 2)]).column_count ≠
        (CMatrix.mk 2 2 [((0, 0), 3), ((0, 1), 4)]).row_count →
      (CMatrix.mk 2 2 [((0, 0), 1), ((1, 1), 2)]).multiply
          (CMatrix.mk 2 2 [((0, 0), 3), ((0, 1), 4)]) =
        Except.error MatrixError.multiplyDimensionMismatch) ∧
    ((CMatrix.mk 2 2 [((0, 0), 1), ((1, 1), 2)]).column_count =
        (CMatrix.mk 2 2 [((0, 0), 3), ((0, 1), 4)]).row_count →
      ∃ m, (CMatrix.mk 2 2 [((0, 0), 1), ((1, 1), 2)]).multiply
          (CMatrix.mk 2 2 [((0, 0), 3), ((0, 1), 4)]) = Except.ok m ∧
        m.row_count = (CMatrix.mk 2 2 [((0, 0), 1), ((1, 1), 2)]).row_count ∧
        m.column_count = (CMatrix.mk 2 2 [((0, 0), 3), ((0, 1), 4)]).column_count ∧
        ∀ r, r < (CMatrix.mk 2 2 [((0, 0), 1), ((1, 1), 2)]).row_count →
          ∀ j, j < (CMatrix.mk 2 2 [((0, 0), 3), ((0, 1), 4)]).column_count →
          m.get_value r j =
            ∑ k ∈ Finset.range (CMatrix.mk 2 2 [((0, 0), 1), ((1, 1), 2)]).column_count,
              (CMatrix.mk 2 2 [((0, 0), 1), ((1, 1), 2)]).get_value r k *
                (CMatrix.mk 2 2 [((0, 0), 3), ((0, 1), 4)]).get_value k j)) :=
  ⟨by decide, claim_C1 (CMatrix.mk 2 2 [((0, 0), 1), ((1, 1), 2)])
    (CMatrix.mk 2 2 [((0, 0), 3), ((0, 1), 4)]) (by decide)⟩

/-- C2: `add(A, B)` and `subtract(A, B)` fail with `DimensionMismatch`
unless the shapes match; on success the result keeps the shape, its value
at every in-range `(r, c)` is `A.get(r,c) ± B.get(r,c)`, and its explicit
key set is exactly the union of the operands' key sets (so zero combined
values remain explicit entries). -/
theorem claim_C2 (a b : CMatrix) (ha : WF a) (hb : WF b) :
    ((a.row_count ≠ b.row_count ∨ a.column_count ≠ b.column_count) →
      a.add b = Except.error (MatrixError.dimensionMismatch true) ∧
        a.subtract b = Except.error (MatrixError.dimensionMismatch false)) ∧
    (a.row_count = b.row_count → a.column_count = b.column_count →
      ∃ s d, a.add b = Except.ok s ∧ a.subtract b = Except.ok d ∧
        s.row_count = a.row_count ∧ s.column_count = a.column_count ∧
        d.row_count = a.row_count ∧ d.column_count = a.column_count ∧
        (∀ r, r < a.row_count → ∀ c, c < a.column_count →
          s.get_value r c = a.get_value r c + b.get_value r c ∧
          d.get_value r c = a.get_value r c - b.get_value r c) ∧
        (∀ r c, hasKey s (r, c) ↔ hasKey a (r, c) ∨ hasKey b (r, c)) ∧
        (∀ r c, hasKey d (r, c) ↔ hasKey a (r, c) ∨ hasKey b (r, c))) := by
  constructor
  · exact fun h => ⟨add_eq_error a b h, subtract_eq_error a b h⟩
  · intro h1 h2
    refine ⟨_, _, add_eq_ok a b h1 h2, subtract_eq_ok a b h1 h2, ?_, ?_, ?_, ?_, ?_, ?_, ?_⟩
    · exact (dims_accumulate_copy _ a b ha.1 hb.1 h1 h2).1
    · exact (dims_accumulate_copy _ a b ha.1 hb.1 h1 h2).2
    · exact (dims_accumulate_copy _ a b ha.1 hb.1 h1 h2).1
    · exact (dims_accumulate_copy _ a b ha.1 hb.1 h1 h2).2
    · intro r hr c hc
      exact ⟨get_value_accumulate_copy _ (fun x => add_zero x) a b ha.2 hb.2 r c,
        get_value_accumulate_copy _ (fun x => sub_zero x) a b ha.2 hb.2 r c⟩
    · exact fun r c => hasKey_accumulate_copy _ a b (r, c)
    · exact fun r c => hasKey_accumulate_copy _ a b (r, c)

/-- Witness for C2 at the spec's concrete scenario. -/
theorem claim_C2_witness :
    WF (CMatrix.mk 2 2 [((0, 0), 1), ((1, 1), 2)]) ∧
    WF (CMatrix.mk 2 2 [((0, 0), 3), ((0, 1), 4)]) ∧
    ∃ s d, (CMatrix.mk 2 2 [((0, 0), 1), ((1, 1), 2)]).add
        (CMatrix.mk 2 2 [((0, 0), 3), ((0, 1), 4)]) = Except.ok s ∧
      (CMatrix.mk 2 2 [((0, 0), 1), ((1, 1), 2)]).subtract
        (CMatrix.mk 2 2 [((0, 0), 3), ((0, 1), 4)]) = Except.ok d ∧
      s.row_count = 2 ∧ s.column_count = 2 ∧ d.row_count = 2 ∧ d.column_count = 2 ∧
      (∀ r, r < 2 → ∀ c, c < 2 →
        s.get_value r c = (CMatrix.mk 2 2 [((0, 0), 1), ((1, 1), 2)]).get_value r c +
            (CMatrix.mk 2 2 [((0, 0), 3), ((0, 1), 4)]).get_value r c ∧
        d.get_value r c = (CMatrix.mk 2 2 [((0, 0), 1), ((1, 1), 2)]).get_value r c -
            (CMatrix.mk 2 2 [((0, 0), 3), ((0, 1), 4)]).get_value r c) ∧
      (∀ r c, hasKey s (r, c) ↔ hasKey (CMatrix.mk 2 2 [((0, 0), 1), ((1, 1), 2)]) (r, c) ∨
          hasKey (CMatrix.mk 2 2 [((0, 0), 3), ((0, 1), 4)]) (r, c)) ∧
      (∀ r c, hasKey d (r, c) ↔ hasKey (CMatrix.mk 2 2 [((0, 0), 1), ((1, 1), 2)]) (r, c) ∨
          hasKey (CMatrix.mk 2 2 [((0, 0), 3), ((0, 1), 4)]) (r, c)) :=
  ⟨by decide, by decide,
    (claim_C2 (CMatrix.mk 2 2 [((0, 0), 1), ((1, 1), 2)])
      (CMatrix.mk 2 2 [((0, 0), 3), ((0, 1), 4)]) (by decide) (by decide)).2 rfl rfl⟩

/-- C4: for same-shaped matrices, `subtract(add(A, B), B)` returns a matrix
agreeing with `A` under `get` over the full index range. -/
theorem claim_C4 (a b : CMatrix) (ha : WF a) (hb : WF b)
    (h1 : a.row_count = b.row_count) (h2 : a.column_count = b.column_count) :
    ∃ s d, a.add b = Except.ok s ∧ s.subtract b = Except.ok d ∧
      ∀ r, r < a.row_count → ∀ c, c < a.column_count →
        d.get_value r c = a.get_value r c := by
  have hdims := dims_accumulate_copy (fun x y => x + y) a b ha.1 hb.1 h1 h2
  set s := accumulate (fun x y => x + y) b.non_zero_elements
    (applyTriples a.non_zero_elements a.create_empty_matrix) with hs
  have hswf := wf_accumulate_copy (fun x y => x + y) a b
  have hsr : s.row_count = b.row_count := hdims.1.trans h1
  have hsc : s.column_count = b.column_count := hdims.2.trans h2
  refine ⟨s, _, add_eq_ok a b h1 h2, subtract_eq_ok s b hsr hsc, ?_⟩
  intro r hr c hc
  rw [get_value_accumulate_copy _ (fun x => sub_zero x) s b hswf.2 hb.2 r c]
  rw [hs, get_value_accumulate_copy _ (fun x => add_zero x) a b ha.2 hb.2 r c]
  ring

/-- Witness for C4 at the spec's concrete scenario. -/
theorem claim_C4_witness :
    ∃ s d, (CMatrix.mk 2 2 [((0, 0), 1), ((1, 1), 2)]).add
        (CMatrix.mk 2 2 [((0, 0), 3), ((0, 1), 4)]) = Except.ok s ∧
      s.subtract (CMatrix.mk 2 2 [((0, 0), 3), ((0, 1), 4)]) = Except.ok d ∧
      ∀ r, r < 2 → ∀ c, c < 2 →
        d.get_value r c = (CMatrix.mk 2 2 [((0, 0), 1), ((1, 1), 2)]).get_value r c :=
  claim_C4 (CMatrix.mk 2 2 [((0, 0), 1), ((1, 1), 2)])
    (CMatrix.mk 2 2 [((0, 0), 3), ((0, 1), 4)]) (by decide) (by decide) rfl rfl

/-- C7: every matrix reachable through the class API keeps all its explicit
keys strictly inside its dimensions, and `set_value` grows an exceeded
dimension to `index + 1` and never shrinks either dimension. -/
theorem claim_C7 :
    (∀ m, Reachable m →
      ∀ p ∈ m.non_zero_elements, p.1.1 < m.row_count ∧ p.1.2 < m.column_count) ∧
    (∀ (m : CMatrix) (r c : Nat) (v : Int),
      (m.row_count ≤ r → (m.set_value r c v).row_count = r + 1) ∧
      (m.column_count ≤ c → (m.set_value r c v).column_count = c + 1) ∧
      m.row_count ≤ (m.set_value r c v).row_count ∧
      m.column_count ≤ (m.set_value r c v).column_count) := by
  constructor
  · exact fun m h => (wf_of_reachable m h).1
  · intro m r c v
    refine ⟨fun h => ?_, fun h => ?_, ?_, ?_⟩
    · rw [row_count_set_value]
      omega
    · rw [column_count_set_value]
      omega
    · rw [row_count_set_value]
      omega
    · rw [column_count_set_value]
      omega

/-- Witness for C7: a matrix built by constructing a 1×1 and setting (2, 3). -/
theorem claim_C7_witness :
    (∀ p ∈ ((CMatrix.mk 1 1 []).set_value 2 3 5).non_zero_elements,
      p.1.1 < ((CMatrix.mk 1 1 []).set_value 2 3 5).row_count ∧
        p.1.2 < ((CMatrix.mk 1 1 []).set_value 2 3 5).column_count) ∧
    ((CMatrix.mk 1 1 []).set_value 2 3 5).row_count = 2 + 1 :=
  ⟨claim_C7.1 _ (Reachable.set _ 2 3 5 (Reachable.construct 1 1)),
    (claim_C7.2 (CMatrix.mk 1 1 []) 2 3 5).1 (by decide)⟩

/-- C8: when parsing succeeds, the value at each coordinate is the value of
the LAST well-formed entry line carrying that coordinate (last-write-wins),
earlier duplicates being discarded; absent coordinates read 0. -/
theorem claim_C8 (lines : List (List Char)) (m : CMatrix)
    (h : load_from_lines lines = Except.ok m) (r c : Nat) :
    m.get_value r c = (lookupLast (entryTriples (lines.drop 2)) (r, c)).getD 0 := by
  obtain ⟨_, R, C, _, _, rfl⟩ := load_from_lines_ok_inv _ _ h
  rw [get_value_applyTriples]
  rfl

/-- Witness for C8: a file with two entries at (0, 0); the later value 9 wins. -/
theorem claim_C8_witness :
    load_from_lines [("rows=1").toList, ("cols=1").toList,
        ("(0, 0, 5)").toList, ("(0, 0, 9)").toList] =
      Except.ok (CMatrix.mk 1 1 [((0, 0), 9)]) ∧
    (CMatrix.mk 1 1 [((0, 0), 9)]).get_value 0 0 =
      (lookupLast (entryTriples ([("rows=1").toList, ("cols=1").toList,
        ("(0, 0, 5)").toList, ("(0, 0, 9)").toList].drop 2)) (0, 0)).getD 0 :=
  ⟨by rfl, claim_C8 _ _ (by rfl) 0 0⟩

/-- C10: with a well-formed header and well-formed (or blank) entry lines,
parsing never rejects out-of-header coordinates; it succeeds, and each
dimension is the maximum of the declared value and (largest index + 1)
over the entries, folded in file order. -/
theorem claim_C10 (l0 l1 : List Char) (rest : List (List Char)) (R C : Nat)
    (hr : matchRows (pyStrip l0) = some R) (hc : matchCols (pyStrip l1) = some C)
    (hgood : ∀ l ∈ rest, GoodLine l) :
    ∃ m, load_from_lines (l0 :: l1 :: rest) = Except.ok m ∧
      m.row_count = (entryTriples rest).foldl (fun a p => max a (p.1.1 + 1)) R ∧
      m.column_count = (entryTriples rest).foldl (fun a p => max a (p.1.2 + 1)) C := by
  have hload : load_from_lines (l0 :: l1 :: rest) =
      Except.ok (applyTriples (entryTriples rest) ⟨R, C, []⟩) := by
    rw [load_from_lines_cons, hr, hc]
    exact parse_non_zero_elements_ok rest 2 _ hgood
  refine ⟨_, hload, ?_, ?_⟩
  · rw [row_count_applyTriples]
  · rw [column_count_applyTriples]

/-- Witness for C10: header declares 1×1, the single entry sits at (2, 3),
and the parsed matrix is 3×4. -/
theorem claim_C10_witness :
    ∃ m, load_from_lines [("rows=1").toList, ("cols=1").toList,
        ("(2, 3, 7)").toList] = Except.ok m ∧
      m.row_count = (entryTriples [("(2, 3, 7)").toList]).foldl
        (fun a p => max a (p.1.1 + 1)) 1 ∧
      m.column_count = (entryTriples [("(2, 3, 7)").toList]).foldl
        (fun a p => max a (p.1.2 + 1)) 1 :=
  claim_C10 (("rows=1").toList) (("cols=1").toList) [("(2, 3, 7)").toList] 1 1
    (by decide) (by decide) (by decide)

/-- Counterexample to C6 as stated: line 1 `rows=2x` is not exactly `rows=`
followed by a non-negative integer and nothing else, yet parsing succeeds
(`re.match` is a prefix match). -/
theorem claim_C6_counterexample :
    load_from_lines [("rows=2x").toList, ("cols=2").toList] =
      Except.ok (CMatrix.mk 2 2 []) := by
  rfl

/-- C6 (amended): parse fails with a FormatError when fewer than 2 lines are
present; with at least two lines it fails with the dimension FormatError
exactly when line 1's strip does not BEGIN with `rows=` followed by at least
one digit, or line 2's strip does not begin with `cols=` followed by at
least one digit — trailing characters after the digits are accepted and
ignored (prefix match). -/
theorem claim_C6_amended :
    (∀ lines : List (List Char), lines.length < 2 →
      load_from_lines lines = Except.error MatrixError.notEnoughLines) ∧
    (∀ (l0 l1 : List Char) (rest : List (List Char)),
      load_from_lines (l0 :: l1 :: rest) =
          Except.error MatrixError.invalidDimensionFormat ↔
        (matchRows (pyStrip l0) = none ∨ matchCols (pyStrip l1) = none)) := by
  constructor
  · exact fun lines h => load_from_lines_short lines h
  · intro l0 l1 rest
    rw [load_from_lines_cons]
    cases hr : matchRows (pyStrip l0) with
    | none => simp
    | some R =>
      cases hc : matchCols (pyStrip l1) with
      | none => simp
      | some C =>
        constructor
        · intro h
          exact absurd h (parse_non_zero_elements_ne_dim_error rest 2 _).1
        · rintro (h | h) <;> exact absurd h (by simp)

/-- Witness for the amended C6. -/
theorem claim_C6_amended_witness :
    load_from_lines [("rows=5").toList] = Except.error MatrixError.notEnoughLines ∧
    (load_from_lines [("rowz=1").toList, ("cols=1").toList] =
        Except.error MatrixError.invalidDimensionFormat ↔
      (matchRows (pyStrip (("rowz=1").toList)) = none ∨
        matchCols (pyStrip (("cols=1").toList)) = none)) :=
  ⟨claim_C6_amended.1 [("rows=5").toList] (by decide),
    claim_C6_amended.2 (("rowz=1").toList) (("cols=1").toList) []⟩

/-- Counterexample to C5 as stated: line 3 carries characters after the
closing parenthesis, so it does not match the entry grammar exactly, yet
parsing succeeds and applies the prefix's triple. -/
theorem claim_C5_counterexample :
    load_from_lines [("rows=1").toList, ("cols=1").toList,
        ("(0, 0, 5)junk").toList] =
      Except.ok (CMatrix.mk 1 1 [((0, 0), 5)]) := by
  rfl

/-- C5 (amended): entry lines are checked by PREFIX match — a line matching
the grammar followed by extra characters is accepted with the trailing
characters ignored — and the FIRST non-blank line after the first two whose
strip fails the prefix grammar aborts parsing with a FormatError naming
that line's 1-based number (and carrying the stripped line text). -/
theorem claim_C5_amended (l0 l1 : List Char) (R C : Nat)
    (hr : matchRows (pyStrip l0) = some R) (hc : matchCols (pyStrip l1) = some C)
    (good : List (List Char)) (bad : List Char) (rest : List (List Char))
    (hgood : ∀ l ∈ good, GoodLine l)
    (hb1 : pyStrip bad ≠ []) (hb2 : matchEntry (pyStrip bad) = none) :
    load_from_lines (l0 :: l1 :: (good ++ bad :: rest)) =
      Except.error (MatrixError.invalidLineFormat (good.length + 3) (pyStrip bad)) := by
  rw [load_from_lines_cons, hr, hc]
  have hmain := parse_non_zero_elements_first_bad good bad rest 2 ⟨R, C, []⟩ hgood hb1 hb2
  rw [show 2 + good.length + 1 = good.length + 3 by omega] at hmain
  exact hmain

/-- Witness for the amended C5: line 4 (`oops`) is the first bad line. -/
theorem claim_C5_amended_witness :
    load_from_lines [("rows=1").toList, ("cols=1").toList, ("(0, 0, 5)").toList,
        ("oops").toList] =
      Except.error (MatrixError.invalidLineFormat 4 (("oops").toList)) :=
  claim_C5_amended (("rows=1").toList) (("cols=1").toList) 1 1 (by decide) (by decide)
    [("(0, 0, 5)").toList] (("oops").toList) [] (by decide) (by decide) (by decide)

/-! ### Serialization lemmas -/

theorem isPyDigit_digitChar (m : Nat) : isPyDigit (digitChar m) = true := by
  unfold digitChar
  split <;> decide

theorem digitVal_digitChar (m : Nat) (h : m < 10) : digitVal (digitChar m) = m := by
  interval_cases m <;> decide

theorem natToDigits_ne_nil (n : Nat) : natToDigits n ≠ [] := by
  rw [natToDigits]
  split
  · simp
  · simp

theorem forall_isPyDigit_natToDigits (n : Nat) :
    ∀ ch ∈ natToDigits n, isPyDigit ch = true := by
  induction n using Nat.strong_induction_on with
  | _ n ih =>
    rw [natToDigits]
    split
    · intro ch hch
      simp only [List.mem_singleton] at hch
      subst hch
      exact isPyDigit_digitChar _
    · rename_i hn
      intro ch hch
      rcases List.mem_append.mp hch with h | h
      · exact ih (n / 10) (by omega) ch h
      · simp only [List.mem_singleton] at h
        subst h
        exact isPyDigit_digitChar _

theorem digitsToNat_append_singleton (ds : List Char) (d : Char) :
    digitsToNat (ds ++ [d]) = 10 * digitsToNat ds + digitVal d := by
  unfold digitsToNat
  rw [List.foldl_append]
  rfl

theorem digitsToNat_natToDigits (n : Nat) : digitsToNat (natToDigits n) = n := by
  induction n using Nat.strong_induction_on with
  | _ n ih =>
    rw [natToDigits]
    split
    · rename_i h
      simp only [digitsToNat, List.foldl_cons, List.foldl_nil]
      rw [digitVal_digitChar n h]
      omega
    · rename_i h
      rw [digitsToNat_append_singleton, ih (n / 10) (by omega),
        digitVal_digitChar _ (by omega)]
      omega

theorem takeWhile_append_not (p : Char → Bool) (l1 : List Char) (c : Char)
    (l2 : List Char) (h1 : ∀ x ∈ l1, p x = true) (hc : p c = false) :
    (l1 ++ c :: l2).takeWhile p = l1 ∧ (l1 ++ c :: l2).dropWhile p = c :: l2 := by
  induction l1 with
  | nil =>
    simp only [List.nil_append]
    constructor
    · rw [List.takeWhile_cons, hc]
      simp
    · rw [List.dropWhile_cons, hc]
      simp
  | cons a l1 ih =>
    have ha := h1 a (List.mem_cons_self _ _)
    have ih2 := ih (fun x hx => h1 x (List.mem_cons_of_mem _ hx))
    constructor
    · simp only [List.cons_append, List.takeWhile_cons, ha, ih2.1]
      simp
    · simp only [List.cons_append, List.dropWhile_cons, ha, ih2.2]
      simp

theorem takeWhile_all_true (p : Char → Bool) (l : List Char)
    (h : ∀ x ∈ l, p x = true) :
    l.takeWhile p = l ∧ l.dropWhile p = [] := by
  induction l with
  | nil => simp
  | cons a l ih =>
    have ha := h a (List.mem_cons_self _ _)
    have ih2 := ih (fun x hx => h x (List.mem_cons_of_mem _ hx))
    constructor
    · simp only [List.takeWhile_cons, ha, ih2.1]
      simp
    · simp only [List.dropWhile_cons, ha, ih2.2]
      simp

theorem matchNat_digits_append (ds : List Char) (c : Char) (rest : List Char)
    (hds : ∀ x ∈ ds, isPyDigit x = true) (hne : ds ≠ []) (hc : isPyDigit c = false) :
    matchNat (ds ++ c :: rest) = some (digitsToNat ds, c :: rest) := by
  unfold matchNat
  obtain ⟨h1, h2⟩ := takeWhile_append_not isPyDigit ds c rest hds hc
  simp only [h1, h2]
  rw [if_neg hne]

theorem matchNat_digits_all (ds : List Char)
    (hds : ∀ x ∈ ds, isPyDigit x = true) (hne : ds ≠ []) :
    matchNat ds = some (digitsToNat ds, []) := by
  unfold matchNat
  obtain ⟨h1, h2⟩ := takeWhile_all_true isPyDigit ds hds
  simp only [h1, h2]
  rw [if_neg hne]

theorem matchNat_natToDigits_cons (n : Nat) (c : Char) (rest : List Char)
    (hc : isPyDigit c = false) :
    matchNat (natToDigits n ++ c :: rest) = some (n, c :: rest) := by
  rw [matchNat_digits_append _ c rest (forall_isPyDigit_natToDigits n)
    (natToDigits_ne_nil n) hc, digitsToNat_natToDigits]

theorem dropLit_append (key rest : List Char) : dropLit key (key ++ rest) = some rest := by
  induction key with
  | nil => rfl
  | cons c cs ih => simp [dropLit, ih]

theorem dropWhile_eq_self_of_head (p : Char → Bool) (l : List Char)
    (h : ∀ a, l.head? = some a → p a = false) : l.dropWhile p = l := by
  cases l with
  | nil => rfl
  | cons a l =>
    rw [List.dropWhile_cons, h a rfl]
    simp

theorem pyStrip_eq_self (l : List Char)
    (hh : ∀ a, l.head? = some a → isPySpace a = false)
    (hl : ∀ a, l.getLast? = some a → isPySpace a = false) : pyStrip l = l := by
  unfold pyStrip
  rw [dropWhile_eq_self_of_head _ l hh]
  rw [dropWhile_eq_self_of_head _ l.reverse
    (fun a ha => hl a (by rwa [List.head?_reverse] at ha))]
  exact List.reverse_reverse l

theorem isPySpace_eq_false_of_isPyDigit (x : Char) (h : isPyDigit x = true) :
    isPySpace x = false := by
  by_cases h1 : x = ' '
  · subst h1
    exact absurd h (by decide)
  by_cases h2 : x = '\t'
  · subst h2
    exact absurd h (by decide)
  by_cases h3 : x = '\n'
  · subst h3
    exact absurd h (by decide)
  by_cases h4 : x = '\r'
  · subst h4
    exact absurd h (by decide)
  by_cases h5 : x = '\x0b'
  · subst h5
    exact absurd h (by decide)
  by_cases h6 : x = '\x0c'
  · subst h6
    exact absurd h (by decide)
  simp [isPySpace, h1, h2, h3, h4, h5, h6]

theorem matchSignedInt_cons (c : Char) (rest : List Char) :
    matchSignedInt (c :: rest) =
      if c = '-' then (matchNat rest).map (fun p => (-(p.1 : Int), p.2))
      else (matchNat (c :: rest)).map (fun p => ((p.1 : Int), p.2)) := rfl

theorem matchSignedInt_intToChars (v : Int) (c : Char) (rest : List Char)
    (hc : isPyDigit c = false) :
    matchSignedInt (intToChars v ++ c :: rest) = some (v, c :: rest) := by
  unfold intToChars
  by_cases hv : v < 0
  · rw [if_pos hv]
    show matchSignedInt ('-' :: (natToDigits v.natAbs ++ c :: rest)) = _
    rw [matchSignedInt_cons, if_pos rfl, matchNat_natToDigits_cons v.natAbs c rest hc]
    show some (-((v.natAbs : Nat) : Int), c :: rest) = some (v, c :: rest)
    have hval : -((v.natAbs : Nat) : Int) = v := by omega
    rw [hval]
  · rw [if_neg hv]
    obtain ⟨d, ds, hds⟩ : ∃ d ds, natToDigits v.toNat = d :: ds := by
      cases hnd : natToDigits v.toNat with
      | nil => exact absurd hnd (natToDigits_ne_nil _)
      | cons d ds => exact ⟨d, ds, rfl⟩
    have hd : d ≠ '-' := by
      have hdig := forall_isPyDigit_natToDigits v.toNat d
        (by rw [hds]; exact List.mem_cons_self _ _)
      rintro rfl
      exact absurd hdig (by decide)
    rw [hds, List.cons_append, matchSignedInt_cons, if_neg hd, ← List.cons_append, ← hds,
      matchNat_natToDigits_cons v.toNat c rest hc]
    show some (((v.toNat : Nat) : Int), c :: rest) = some (v, c :: rest)
    rw [Int.toNat_of_nonneg (by omega)]

theorem matchHeader_key_digits (key : List Char) (n : Nat) :
    matchHeader key (key ++ natToDigits n) = some n := by
  unfold matchHeader
  rw [dropLit_append]
  simp only [Option.bind_eq_bind, Option.some_bind]
  rw [matchNat_digits_all (natToDigits n) (forall_isPyDigit_natToDigits n)
    (natToDigits_ne_nil n), digitsToNat_natToDigits]
  rfl

theorem mem_of_getLast?_eq_some (l : List Char) (a : Char) (h : l.getLast? = some a) :
    a ∈ l := by
  obtain ⟨hne, heq⟩ := List.mem_getLast?_eq_getLast (l := l) (x := a) h
  rw [heq]
  exact List.getLast_mem hne

theorem pyStrip_eq_self_of_forall (l : List Char)
    (h : ∀ x ∈ l, isPySpace x = false) : pyStrip l = l := by
  apply pyStrip_eq_self
  · exact fun a ha => h a (List.mem_of_mem_head? (by rw [ha]; rfl))
  · exact fun a ha => h a (mem_of_getLast?_eq_some l a ha)

theorem pyStrip_header (key : List Char) (hk : ∀ x ∈ key, isPySpace x = false)
    (n : Nat) : pyStrip (key ++ natToDigits n) = key ++ natToDigits n := by
  apply pyStrip_eq_self_of_forall
  intro x hx
  rcases List.mem_append.mp hx with h | h
  · exact hk x h
  · exact isPySpace_eq_false_of_isPyDigit x (forall_isPyDigit_natToDigits n x h)

theorem header_ne_nil (key : List Char) (n : Nat) : key ++ natToDigits n ≠ [] := by
  simp [natToDigits_ne_nil n]

theorem dropWhile_space_natToDigits (n : Nat) (z : List Char) :
    List.dropWhile isPySpace (natToDigits n ++ z) = natToDigits n ++ z := by
  obtain ⟨d, ds, hds⟩ : ∃ d ds, natToDigits n = d :: ds := by
    cases hnd : natToDigits n with
    | nil => exact absurd hnd (natToDigits_ne_nil _)
    | cons d ds => exact ⟨d, ds, rfl⟩
  have hd : isPySpace d = false :=
    isPySpace_eq_false_of_isPyDigit d
      (forall_isPyDigit_natToDigits n d (by rw [hds]; exact List.mem_cons_self _ _))
  rw [hds, List.cons_append, List.dropWhile_cons, hd]
  simp

theorem dropWhile_space_intToChars (v : Int) (z : List Char) :
    List.dropWhile isPySpace (intToChars v ++ z) = intToChars v ++ z := by
  unfold intToChars
  by_cases hv : v < 0
  · rw [if_pos hv, List.cons_append, List.dropWhile_cons,
      show isPySpace '-' = false from rfl]
    simp
  · rw [if_neg hv]
    exact dropWhile_space_natToDigits _ z

theorem mem_intToChars (x : Char) (v : Int) (h : x ∈ intToChars v) :
    x = '-' ∨ isPyDigit x = true := by
  unfold intToChars at h
  by_cases hv : v < 0
  · rw [if_pos hv] at h
    rcases List.mem_cons.mp h with h2 | h2
    · exact Or.inl h2
    · exact Or.inr (forall_isPyDigit_natToDigits _ _ h2)
  · rw [if_neg hv] at h
    exact Or.inr (forall_isPyDigit_natToDigits _ _ h)

theorem matchEntry_serializeEntryLine (p : (Nat × Nat) × Int) :
    matchEntry (serializeEntryLine p) = some p := by
  obtain ⟨⟨r, c⟩, v⟩ := p
  have hline : serializeEntryLine ((r, c), v) =
      '(' :: (natToDigits r ++ ',' :: ' ' :: (natToDigits c ++ ',' :: ' ' ::
        (intToChars v ++ [')']))) := by
    simp [serializeEntryLine, List.append_assoc]
  rw [hline]
  have h1 : dropLit (("(").toList) ('(' :: (natToDigits r ++ ',' :: ' ' ::
      (natToDigits c ++ ',' :: ' ' :: (intToChars v ++ [')'])))) =
      some (natToDigits r ++ ',' :: ' ' :: (natToDigits c ++ ',' :: ' ' ::
        (intToChars v ++ [')']))) := rfl
  have h2 : matchNat (natToDigits r ++ ',' :: ' ' :: (natToDigits c ++ ',' :: ' ' ::
      (intToChars v ++ [')']))) = some (r, ',' :: ' ' :: (natToDigits c ++ ',' :: ' ' ::
      (intToChars v ++ [')']))) := matchNat_natToDigits_cons r ',' _ (by decide)
  have h4 : List.dropWhile isPySpace (' ' :: (natToDigits c ++ ',' :: ' ' ::
      (intToChars v ++ [')']))) = natToDigits c ++ ',' :: ' ' ::
        (intToChars v ++ [')']) := by
    rw [List.dropWhile_cons, show isPySpace ' ' = true from rfl]
    simp only [if_true]
    exact dropWhile_space_natToDigits c _
  have h5 : matchNat (natToDigits c ++ ',' :: ' ' :: (intToChars v ++ [')'])) =
      some (c, ',' :: ' ' :: (intToChars v ++ [')'])) :=
    matchNat_natToDigits_cons c ',' _ (by decide)
  have h7 : List.dropWhile isPySpace (' ' :: (intToChars v ++ [')'])) =
      intToChars v ++ [')'] := by
    rw [List.dropWhile_cons, show isPySpace ' ' = true from rfl]
    simp only [if_true]
    exact dropWhile_space_intToChars v _
  have h8 : matchSignedInt (intToChars v ++ [')']) = some (v, [')']) :=
    matchSignedInt_intToChars v ')' [] (by decide)
  have h3 : dropLit ((",").toList) (',' :: ' ' :: (natToDigits c ++ ',' :: ' ' ::
      (intToChars v ++ [')']))) = some (' ' :: (natToDigits c ++ ',' :: ' ' ::
      (intToChars v ++ [')']))) := rfl
  have h6 : dropLit ((",").toList) (',' :: ' ' :: (intToChars v ++ [')'])) =
      some (' ' :: (intToChars v ++ [')'])) := rfl
  have h9 : dropLit ((")").toList) [')'] = some [] := rfl
  unfold matchEntry
  simp only [Option.bind_eq_bind, h1, Option.some_bind, h2, h3, h4, h5, h6, h7, h8, h9]
  rfl

theorem pyStrip_serializeEntryLine (p : (Nat × Nat) × Int) :
    pyStrip (serializeEntryLine p) = serializeEntryLine p := by
  apply pyStrip_eq_self
  · intro a ha
    rw [show (serializeEntryLine p).head? = some '(' from rfl] at ha
    cases ha
    decide
  · intro a ha
    rw [show serializeEntryLine p = ('(' :: (natToDigits p.1.1 ++ (", ").toList ++
        natToDigits p.1.2 ++ (", ").toList ++ intToChars p.2)) ++ [')'] from rfl,
      List.getLast?_concat] at ha
    cases ha
    decide

theorem serializeEntryLine_ne_nil (p : (Nat × Nat) × Int) :
    serializeEntryLine p ≠ [] :=
  List.cons_ne_nil _ _

theorem not_newline_mem_serializeEntryLine (p : (Nat × Nat) × Int) :
    '\n' ∉ serializeEntryLine p := by
  intro hmem
  obtain ⟨⟨r, c⟩, v⟩ := p
  have hline : serializeEntryLine ((r, c), v) =
      '(' :: (natToDigits r ++ ',' :: ' ' :: (natToDigits c ++ ',' :: ' ' ::
        (intToChars v ++ [')']))) := by
    simp [serializeEntryLine, List.append_assoc]
  rw [hline] at hmem
  rcases List.mem_cons.mp hmem with h | h
  · exact absurd h (by decide)
  rcases List.mem_append.mp h with h | h
  · exact absurd (forall_isPyDigit_natToDigits r _ h) (by decide)
  rcases List.mem_cons.mp h with h | h
  · exact absurd h (by decide)
  rcases List.mem_cons.mp h with h | h
  · exact absurd h (by decide)
  rcases List.mem_append.mp h with h | h
  · exact absurd (forall_isPyDigit_natToDigits c _ h) (by decide)
  rcases List.mem_cons.mp h with h | h
  · exact absurd h (by decide)
  rcases List.mem_cons.mp h with h | h
  · exact absurd h (by decide)
  rcases List.mem_append.mp h with h | h
  · rcases mem_intToChars _ v h with h2 | h2
    · exact absurd h2 (by decide)
    · exact absurd h2 (by decide)
  · rcases List.mem_singleton.mp h with h2
    exact absurd h2 (by decide)

theorem not_newline_mem_header (key : List Char) (hk : '\n' ∉ key) (n : Nat) :
    '\n' ∉ key ++ natToDigits n := by
  intro hmem
  rcases List.mem_append.mp hmem with h | h
  · exact hk h
  · exact absurd (forall_isPyDigit_natToDigits n _ h) (by decide)

theorem readLines_cons (ch : Char) (rest : List Char) :
    readLines (ch :: rest) =
      if ch = '\n' then [] :: readLines rest
      else
        match readLines rest with
        | [] => [[ch]]
        | l :: ls => (ch :: l) :: ls := rfl

theorem readLines_append_newline (l t : List Char) (h : '\n' ∉ l) :
    readLines (l ++ '\n' :: t) = l :: readLines t := by
  induction l with
  | nil => rfl
  | cons a l2 ih =>
    have ha : a ≠ '\n' := fun hh => h (hh ▸ List.mem_cons_self _ _)
    have ih2 := ih (fun hm => h (List.mem_cons_of_mem _ hm))
    rw [List.cons_append, readLines_cons, if_neg ha, ih2]

theorem readLines_single (l : List Char) (h : '\n' ∉ l) (hne : l ≠ []) :
    readLines l = [l] := by
  induction l with
  | nil => exact absurd rfl hne
  | cons a t ih =>
    have ha : a ≠ '\n' := fun hh => h (hh ▸ List.mem_cons_self _ _)
    rw [readLines_cons, if_neg ha]
    by_cases ht : t = []
    · subst ht
      rfl
    · rw [ih (fun hm => h (List.mem_cons_of_mem _ hm)) ht]

theorem readLines_joinLines (ls : List (List Char))
    (h : ∀ l ∈ ls, '\n' ∉ l ∧ l ≠ []) (hne : ls ≠ []) :
    readLines (joinLines ls) = ls := by
  induction ls with
  | nil => exact absurd rfl hne
  | cons l rest ih =>
    cases rest with
    | nil =>
      show readLines (joinLines [l]) = [l]
      rw [show joinLines [l] = l from rfl]
      exact readLines_single l (h l (List.mem_cons_self _ _)).1
        (h l (List.mem_cons_self _ _)).2
    | cons l2 rest2 =>
      show readLines (l ++ '\n' :: joinLines (l2 :: rest2)) = l :: (l2 :: rest2)
      rw [readLines_append_newline l _ (h l (List.mem_cons_self _ _)).1,
        ih (fun x hx => h x (List.mem_cons_of_mem _ hx)) (List.cons_ne_nil _ _)]

theorem entryTriples_map_serialize (l : List ((Nat × Nat) × Int)) :
    entryTriples (l.map serializeEntryLine) = l := by
  induction l with
  | nil => rfl
  | cons p rest ih =>
    simp only [List.map_cons, entryTriples, pyStrip_serializeEntryLine p]
    rw [if_neg (serializeEntryLine_ne_nil p), matchEntry_serializeEntryLine p, ih]

/-- C3: a serialize→parse round trip succeeds and reproduces the dimensions
and the `get` observations of the original matrix at every coordinate,
explicit zero entries included. -/
theorem claim_C3 (m : CMatrix) (hm : WF m) :
    ∃ m2, load_from_text (serialize m) = Except.ok m2 ∧
      m2.row_count = m.row_count ∧ m2.column_count = m.column_count ∧
      ∀ r c, m2.get_value r c = m.get_value r c := by
  have hlines : readLines (serialize m) = serializeLines m := by
    unfold serialize
    apply readLines_joinLines
    · intro l hl
      unfold serializeLines at hl
      rcases List.mem_cons.mp hl with rfl | hl2
      · exact ⟨not_newline_mem_header _ (by decide) _, header_ne_nil _ _⟩
      rcases List.mem_cons.mp hl2 with rfl | hl3
      · exact ⟨not_newline_mem_header _ (by decide) _, header_ne_nil _ _⟩
      obtain ⟨p, _, rfl⟩ := List.mem_map.mp hl3
      exact ⟨not_newline_mem_serializeEntryLine p, serializeEntryLine_ne_nil p⟩
    · exact List.cons_ne_nil _ _
  have hgood : ∀ l ∈ (m.non_zero_elements.map serializeEntryLine), GoodLine l := by
    intro l hl
    obtain ⟨p, _, rfl⟩ := List.mem_map.mp hl
    right
    rw [pyStrip_serializeEntryLine p, matchEntry_serializeEntryLine p]
    rfl
  have hload : load_from_text (serialize m) =
      Except.ok (applyTriples m.non_zero_elements ⟨m.row_count, m.column_count, []⟩) := by
    unfold load_from_text
    rw [hlines]
    show load_from_lines ((("rows=").toList ++ natToDigits m.row_count) ::
      (("cols=").toList ++ natToDigits m.column_count) ::
      m.non_zero_elements.map serializeEntryLine) = _
    rw [load_from_lines_cons,
      show matchRows (pyStrip (("rows=").toList ++ natToDigits m.row_count)) =
          some m.row_count from by
        rw [pyStrip_header _ (by decide) _]
        exact matchHeader_key_digits _ _,
      show matchCols (pyStrip (("cols=").toList ++ natToDigits m.column_count)) =
          some m.column_count from by
        rw [pyStrip_header _ (by decide) _]
        exact matchHeader_key_digits _ _]
    show parse_non_zero_elements (m.non_zero_elements.map serializeEntryLine) 2
      ⟨m.row_count, m.column_count, []⟩ = _
    rw [parse_non_zero_elements_ok _ 2 _ hgood, entryTriples_map_serialize]
  refine ⟨_, hload, ?_, ?_, ?_⟩
  · rw [row_count_applyTriples]
    exact foldl_max_eq_self _ _ _ (fun p hp => (hm.1 p hp).1)
  · rw [column_count_applyTriples]
    exact foldl_max_eq_self _ _ _ (fun p hp => (hm.1 p hp).2)
  · intro r c
    rw [get_value_applyTriples, nodupKeys_lookupLast_eq_dictGet _ hm.2]
    show (dictGet m.non_zero_elements (r, c)).getD 0 = m.get_value r c
    rfl

/-- Witness for C3 on a matrix holding a positive and a negative entry. -/
theorem claim_C3_witness :
    WF (CMatrix.mk 2 3 [((0, 0), 5), ((1, 2), -7)]) ∧
    ∃ m2, load_from_text (serialize (CMatrix.mk 2 3 [((0, 0), 5), ((1, 2), -7)])) =
        Except.ok m2 ∧
      m2.row_count = 2 ∧ m2.column_count = 3 ∧
      ∀ r c, m2.get_value r c =
        (CMatrix.mk 2 3 [((0, 0), 5), ((1, 2), -7)]).get_value r c :=
  ⟨by decide, claim_C3 _ (by decide)⟩

/-! ### Heap model for the purity / frame claim -/

/-- The object dereferenced when a reference is dangling (never reached for
valid references). -/
def defaultMatrix : CMatrix := ⟨0, 0, []⟩

/-- `add` under an explicit object heap: `self` and `other` are references
into the heap, the result object is allocated fresh at the end, and every
`set_value` in the loops mutates only the result object. -/
def heap_add (h : List CMatrix) (ia ib : Nat) :
    Except MatrixError (List CMatrix × Nat) :=
  let a := h.getD ia defaultMatrix
  let b := h.getD ib defaultMatrix
  if a.row_count ≠ b.row_count || a.column_count ≠ b.column_count then
    Except.error (MatrixError.dimensionMismatch true)
  else
    let ir := h.length
    let h1 := h ++ [a.create_empty_matrix]
    let h2 := a.non_zero_elements.foldl
      (fun hh p => hh.set ir ((hh.getD ir defaultMatrix).set_value p.1.1 p.1.2 p.2)) h1
    let h3 := b.non_zero_elements.foldl
      (fun hh p => hh.set ir ((hh.getD ir defaultMatrix).set_value p.1.1 p.1.2
        ((hh.getD ir defaultMatrix).get_value p.1.1 p.1.2 + p.2))) h2
    Except.ok (h3, ir)

/-- `subtract` under the explicit object heap. -/
def heap_subtract (h : List CMatrix) (ia ib : Nat) :
    Except MatrixError (List CMatrix × Nat) :=
  let a := h.getD ia defaultMatrix
  let b := h.getD ib defaultMatrix
  if a.row_count ≠ b.row_count || a.column_count ≠ b.column_count then
    Except.error (MatrixError.dimensionMismatch false)
  else
    let ir := h.length
    let h1 := h ++ [a.create_empty_matrix]
    let h2 := a.non_zero_elements.foldl
      (fun hh p => hh.set ir ((hh.getD ir defaultMatrix).set_value p.1.1 p.1.2 p.2)) h1
    let h3 := b.non_zero_elements.foldl
      (fun hh p => hh.set ir ((hh.getD ir defaultMatrix).set_value p.1.1 p.1.2
        ((hh.getD ir defaultMatrix).get_value p.1.1 p.1.2 - p.2))) h2
    Except.ok (h3, ir)

/-- `multiply` under the explicit object heap. -/
def heap_multiply (h : List CMatrix) (ia ib : Nat) :
    Except MatrixError (List CMatrix × Nat) :=
  let a := h.getD ia defaultMatrix
  let b := h.getD ib defaultMatrix
  if a.column_count ≠ b.row_count then
    Except.error MatrixError.multiplyDimensionMismatch
  else
    let ir := h.length
    let h1 := h ++ [CMatrix.mk a.row_count b.column_count []]
    let h2 := a.non_zero_elements.foldl (fun hh p =>
      (List.range b.column_count).foldl (fun hh k =>
        let other_value := b.get_value p.1.2 k
        if other_value ≠ 0 then
          hh.set ir ((hh.getD ir defaultMatrix).set_value p.1.1 k
            ((hh.getD ir defaultMatrix).get_value p.1.1 k + p.2 * other_value))
        else hh) hh) h1
    Except.ok (h2, ir)

theorem getD_set_ne (h : List CMatrix) (i j : Nat) (x : CMatrix) (hij : i ≠ j) :
    (h.set i x).getD j defaultMatrix = h.getD j defaultMatrix := by
  simp [List.getD, List.getElem?_set_ne hij]

/-- Frame lemma: a fold whose every step only writes reference `ir` (or
leaves the heap alone) preserves every other slot and the heap length. -/
theorem foldl_heap_frame {α : Type} (step : List CMatrix → α → List CMatrix) (ir : Nat)
    (hstep : ∀ hh x, step hh x = hh ∨
      ∃ y, step hh x = hh.set ir y)
    (l : List α) (h0 : List CMatrix) :
    (∀ j, j ≠ ir →
      (l.foldl step h0).getD j defaultMatrix = h0.getD j defaultMatrix) ∧
      (l.foldl step h0).length = h0.length := by
  induction l generalizing h0 with
  | nil => exact ⟨fun j _ => rfl, rfl⟩
  | cons x xs ih =>
    obtain ⟨ih1, ih2⟩ := ih (step h0 x)
    constructor
    · intro j hj
      rw [List.foldl_cons, ih1 j hj]
      rcases hstep h0 x with he | ⟨y, he⟩
      · rw [he]
      · rw [he, getD_set_ne _ _ _ _ (fun hh => hj hh.symm)]
    · rw [List.foldl_cons, ih2]
      rcases hstep h0 x with he | ⟨y, he⟩
      · rw [he]
      · rw [he, List.length_set]

/-- Frame lemma, functional form: a fold each of whose steps preserves all
slots other than `ir` and the length, preserves them overall. -/
theorem foldl_heap_frame2 {α : Type} (step : List CMatrix → α → List CMatrix) (ir : Nat)
    (hstep : ∀ hh x,
      (∀ j, j ≠ ir → (step hh x).getD j defaultMatrix = hh.getD j defaultMatrix) ∧
        (step hh x).length = hh.length)
    (l : List α) (h0 : List CMatrix) :
    (∀ j, j ≠ ir →
      (l.foldl step h0).getD j defaultMatrix = h0.getD j defaultMatrix) ∧
      (l.foldl step h0).length = h0.length := by
  induction l generalizing h0 with
  | nil => exact ⟨fun j _ => rfl, rfl⟩
  | cons x xs ih =>
    obtain ⟨ih1, ih2⟩ := ih (step h0 x)
    exact ⟨fun j hj => (ih1 j hj).trans ((hstep h0 x).1 j hj),
      ih2.trans (hstep h0 x).2⟩

/-- C9: under the explicit heap model, each of the three operations returns
a FRESH reference (the old heap length — beyond every existing reference),
grows the heap by exactly the one result object, and leaves every
pre-existing object, the operands included, unchanged. -/
theorem claim_C9 (h : List CMatrix) (ia ib : Nat) (out : List CMatrix × Nat)
    (hop : heap_add h ia ib = Except.ok out ∨
      heap_subtract h ia ib = Except.ok out ∨
      heap_multiply h ia ib = Except.ok out) :
    out.2 = h.length ∧ out.1.length = h.length + 1 ∧
      ∀ j, j < h.length → out.1.getD j defaultMatrix = h.getD j defaultMatrix := by
  have hbase : ∀ j, j < h.length →
      (h ++ [(h.getD ia defaultMatrix).create_empty_matrix]).getD j defaultMatrix =
        h.getD j defaultMatrix :=
    fun j hj => List.getD_append h _ defaultMatrix j hj
  have hbase2 : ∀ j, j < h.length →
      (h ++ [CMatrix.mk (h.getD ia defaultMatrix).row_count
        (h.getD ib defaultMatrix).column_count []]).getD j defaultMatrix =
        h.getD j defaultMatrix :=
    fun j hj => List.getD_append h _ defaultMatrix j hj
  have hsetOr : ∀ (f : List CMatrix → ((Nat × Nat) × Int) → CMatrix)
      (hh : List CMatrix) (x : (Nat × Nat) × Int),
      (∀ j, j ≠ h.length →
        (hh.set h.length (f hh x)).getD j defaultMatrix = hh.getD j defaultMatrix) ∧
        (hh.set h.length (f hh x)).length = hh.length :=
    fun f hh x =>
      ⟨fun j hj => getD_set_ne hh h.length j (f hh x) (fun hh2 => hj hh2.symm),
        List.length_set hh _ _⟩
  rcases hop with hop | hop | hop
  · by_cases hr : (h.getD ia defaultMatrix).row_count = (h.getD ib defaultMatrix).row_count
    · by_cases hc : (h.getD ia defaultMatrix).column_count =
          (h.getD ib defaultMatrix).column_count
      · have hok : heap_add h ia ib = Except.ok
            ((h.getD ib defaultMatrix).non_zero_elements.foldl
              (fun hh p => hh.set h.length
                ((hh.getD h.length defaultMatrix).set_value p.1.1 p.1.2
                  ((hh.getD h.length defaultMatrix).get_value p.1.1 p.1.2 + p.2)))
              ((h.getD ia defaultMatrix).non_zero_elements.foldl
                (fun hh p => hh.set h.length
                  ((hh.getD h.length defaultMatrix).set_value p.1.1 p.1.2 p.2))
                (h ++ [(h.getD ia defaultMatrix).create_empty_matrix])), h.length) := by
          simp [heap_add, hr, hc]
          exact ⟨by simpa using hr, by simpa using hc⟩
        rw [hok] at hop
        obtain rfl := (Except.ok.inj hop).symm
        obtain ⟨hf1, hl1⟩ := foldl_heap_frame2 _ h.length (hsetOr _)
          (h.getD ia defaultMatrix).non_zero_elements
          (h ++ [(h.getD ia defaultMatrix).create_empty_matrix])
        obtain ⟨hf2, hl2⟩ := foldl_heap_frame2 _ h.length (hsetOr _)
          (h.getD ib defaultMatrix).non_zero_elements _
        refine ⟨rfl, ?_, ?_⟩
        · rw [hl2, hl1]
          simp
        · intro j hj
          rw [hf2 j (by omega), hf1 j (by omega), hbase j hj]
      · exfalso
        have : heap_add h ia ib = Except.error (MatrixError.dimensionMismatch true) := by
          simp [heap_add, hc]
          exact fun _ => by simpa using hc
        rw [this] at hop
        cases hop
    · exfalso
      have : heap_add h ia ib = Except.error (MatrixError.dimensionMismatch true) := by
        simp [heap_add, hr]
        exact fun hreq => absurd (by simpa using hreq) hr
      rw [this] at hop
      cases hop
  · by_cases hr : (h.getD ia defaultMatrix).row_count = (h.getD ib defaultMatrix).row_count
    · by_cases hc : (h.getD ia defaultMatrix).column_count =
          (h.getD ib defaultMatrix).column_count
      · have hok : heap_subtract h ia ib = Except.ok
            ((h.getD ib defaultMatrix).non_zero_elements.foldl
              (fun hh p => hh.set h.length
                ((hh.getD h.length defaultMatrix).set_value p.1.1 p.1.2
                  ((hh.getD h.length defaultMatrix).get_value p.1.1 p.1.2 - p.2)))
              ((h.getD ia defaultMatrix).non_zero_elements.foldl
                (fun hh p => hh.set h.length
                  ((hh.getD h.length defaultMatrix).set_value p.1.1 p.1.2 p.2))
                (h ++ [(h.getD ia defaultMatrix).create_empty_matrix])), h.length) := by
          simp [heap_subtract, hr, hc]
          exact ⟨by simpa using hr, by simpa using hc⟩
        rw [hok] at hop
        obtain rfl := (Except.ok.inj hop).symm
        obtain ⟨hf1, hl1⟩ := foldl_heap_frame2 _ h.length (hsetOr _)
          (h.getD ia defaultMatrix).non_zero_elements
          (h ++ [(h.getD ia defaultMatrix).create_empty_matrix])
        obtain ⟨hf2, hl2⟩ := foldl_heap_frame2 _ h.length (hsetOr _)
          (h.getD ib defaultMatrix).non_zero_elements _
        refine ⟨rfl, ?_, ?_⟩
        · rw [hl2, hl1]
          simp
        · intro j hj
          rw [hf2 j (by omega), hf1 j (by omega), hbase j hj]
      · exfalso
        have : heap_subtract h ia ib =
            Except.error (MatrixError.dimensionMismatch false) := by
          simp [heap_subtract, hc]
          exact fun _ => by simpa using hc
        rw [this] at hop
        cases hop
    · exfalso
      have : heap_subtract h ia ib =
          Except.error (MatrixError.dimensionMismatch false) := by
        simp [heap_subtract, hr]
        exact fun hreq => absurd (by simpa using hreq) hr
      rw [this] at hop
      cases hop
  · by_cases hk : (h.getD ia defaultMatrix).column_count =
        (h.getD ib defaultMatrix).row_count
    · have hok : heap_multiply h ia ib = Except.ok
          ((h.getD ia defaultMatrix).non_zero_elements.foldl (fun hh p =>
            (List.range (h.getD ib defaultMatrix).column_count).foldl (fun hh k =>
              let other_value := (h.getD ib defaultMatrix).get_value p.1.2 k
              if other_value ≠ 0 then
                hh.set h.length ((hh.getD h.length defaultMatrix).set_value p.1.1 k
                  ((hh.getD h.length defaultMatrix).get_value p.1.1 k + p.2 * other_value))
              else hh) hh)
            (h ++ [CMatrix.mk (h.getD ia defaultMatrix).row_count
              (h.getD ib defaultMatrix).column_count []]), h.length) := by
        simp [heap_multiply, hk]
        exact by simpa using hk
      rw [hok] at hop
      obtain rfl := (Except.ok.inj hop).symm
      have houter : ∀ (hh : List CMatrix) (p : (Nat × Nat) × Int),
          (∀ j, j ≠ h.length →
            ((List.range (h.getD ib defaultMatrix).column_count).foldl (fun hh k =>
              let other_value := (h.getD ib defaultMatrix).get_value p.1.2 k
              if other_value ≠ 0 then
                hh.set h.length ((hh.getD h.length defaultMatrix).set_value p.1.1 k
                  ((hh.getD h.length defaultMatrix).get_value p.1.1 k + p.2 * other_value))
              else hh) hh).getD j defaultMatrix = hh.getD j defaultMatrix) ∧
            ((List.range (h.getD ib defaultMatrix).column_count).foldl (fun hh k =>
              let other_value := (h.getD ib defaultMatrix).get_value p.1.2 k
              if other_value ≠ 0 then
                hh.set h.length ((hh.getD h.length defaultMatrix).set_value p.1.1 k
                  ((hh.getD h.length defaultMatrix).get_value p.1.1 k + p.2 * other_value))
              else hh) hh).length = hh.length := by
        intro hh p
        apply foldl_heap_frame2
        intro hh2 k
        constructor
        · intro j hj
          by_cases hov : (h.getD ib defaultMatrix).get_value p.1.2 k ≠ 0
          · rw [if_pos hov]
            exact getD_set_ne hh2 h.length j _ (fun hh3 => hj hh3.symm)
          · rw [if_neg hov]
        · by_cases hov : (h.getD ib defaultMatrix).get_value p.1.2 k ≠ 0
          · rw [if_pos hov]
            exact List.length_set hh2 _ _
          · rw [if_neg hov]
      obtain ⟨hf, hl⟩ := foldl_heap_frame2 _ h.length houter
        (h.getD ia defaultMatrix).non_zero_elements
        (h ++ [CMatrix.mk (h.getD ia defaultMatrix).row_count
          (h.getD ib defaultMatrix).column_count []])
      refine ⟨rfl, ?_, ?_⟩
      · rw [hl]
        simp
      · intro j hj
        rw [hf j (by omega), hbase2 j hj]
    · exfalso
      have : heap_multiply h ia ib =
          Except.error MatrixError.multiplyDimensionMismatch := by
        simp [heap_multiply, hk]
        exact by simpa using hk
      rw [this] at hop
      cases hop

/-- Witness for C9: adding the two 1×1 matrices stored at references 0 and 1
allocates the result at fresh reference 2 and leaves both operands intact. -/
theorem claim_C9_witness :
    (2 : Nat) = ([CMatrix.mk 1 1 [((0, 0), 1)],
        CMatrix.mk 1 1 [((0, 0), 2)]] : List CMatrix).length ∧
    ([CMatrix.mk 1 1 [((0, 0), 1)], CMatrix.mk 1 1 [((0, 0), 2)],
        CMatrix.mk 1 1 [((0, 0), 3)]] : List CMatrix).length =
      ([CMatrix.mk 1 1 [((0, 0), 1)],
        CMatrix.mk 1 1 [((0, 0), 2)]] : List CMatrix).length + 1 ∧
    ∀ j, j < ([CMatrix.mk 1 1 [((0, 0), 1)],
        CMatrix.mk 1 1 [((0, 0), 2)]] : List CMatrix).length →
      ([CMatrix.mk 1 1 [((0, 0), 1)], CMatrix.mk 1 1 [((0, 0), 2)],
          CMatrix.mk 1 1 [((0, 0), 3)]] : List CMatrix).getD j defaultMatrix =
        ([CMatrix.mk 1 1 [((0, 0), 1)],
          CMatrix.mk 1 1 [((0, 0), 2)]] : List CMatrix).getD j defaultMatrix :=
  claim_C9 [CMatrix.mk 1 1 [((0, 0), 1)], CMatrix.mk 1 1 [((0, 0), 2)]] 0 1
    ([CMatrix.mk 1 1 [((0, 0), 1)], CMatrix.mk 1 1 [((0, 0), 2)],
      CMatrix.mk 1 1 [((0, 0), 3)]], 2)
    (Or.inl (by rfl))
